import Mathlib

/-!
# Authentication and role middleware of the backend

A shallow embedding of `internal/middleware/auth.go`, `internal/middleware/logger.go`
and `internal/models/errors.go`, together with the parts of the Go standard library
(`strings`, `unicode`) that `Auth` calls on the `Authorization` header.

Go strings are modelled as Lean strings, i.e. sequences of Unicode scalar values
(well-formed UTF-8).  The request context of the web framework is modelled as an
explicit state record; a handler is a function from that state to either a new
state or a run-time panic.  `c.Next()` is modelled by passing the rest of the
handler chain as a continuation.
-/

namespace Backend

/-! ## Go standard library: `unicode` and `strings` -/

/-- The two Unicode case tables of Go's `unicode` package that the `strings`
functions consult for runes outside ASCII.  `lowerCase` is the lookup
`unicode.To(unicode.LowerCase, r)`, `SimpleFold` is `unicode.SimpleFold`.
The ASCII behaviour of both is hard-coded in Go and is modelled concretely below. -/
structure CaseTables where
  lowerCase : Char → Char
  SimpleFold : Char → Char

/-- A fact about the lower-case table of Unicode used by the theorems on header
parsing: no rune outside ASCII has one of the characters of `"bearer "` as its
lower case.  (In the Unicode tables the only non-ASCII runes with an ASCII lower
case are U+0130, mapped to `i`, and U+212A, mapped to `k`.) -/
def CaseTables.BearerSafe (T : CaseTables) : Prop :=
  ∀ c : Char, 128 ≤ c.toNat → T.lowerCase c ∉ ['b', 'e', 'a', 'r', ' ']

/-- The rune `unicode.ToLower(r)`: ASCII is handled by an explicit branch, every
other rune goes through the case table. -/
def unicodeToLower (T : CaseTables) (r : Char) : Char :=
  if r.toNat ≤ 0x7F then
    if 'A'.toNat ≤ r.toNat ∧ r.toNat ≤ 'Z'.toNat then Char.ofNat (r.toNat + 32) else r
  else T.lowerCase r

/-- The predicate `unicode.IsSpace`: the Latin-1 white space and the runes with the
Unicode property White_Space. -/
def unicodeIsSpace (r : Char) : Bool :=
  r.toNat ∈ [0x09, 0x0A, 0x0B, 0x0C, 0x0D, 0x20, 0x85, 0xA0,
    0x1680, 0x2028, 0x2029, 0x202F, 0x205F, 0x3000]
  || (0x2000 ≤ r.toNat && r.toNat ≤ 0x200A)

/-- Go `strings.ToLower`: every rune is mapped through `unicode.ToLower`. -/
def stringsToLower (T : CaseTables) (s : String) : String :=
  ⟨s.data.map (unicodeToLower T)⟩

/-- Go `strings.HasPrefix`. -/
def stringsHasPrefix (s pre : String) : Bool :=
  pre.data.isPrefixOf s.data

/-- The scanning loop of `strings.Fields`: `cur` is the field being read, if any. -/
def fieldsLoop : List Char → Option (List Char) → List String
  | [], none => []
  | [], some cur => [⟨cur⟩]
  | r :: rs, none =>
    if unicodeIsSpace r then fieldsLoop rs none else fieldsLoop rs (some [r])
  | r :: rs, some cur =>
    if unicodeIsSpace r then ⟨cur⟩ :: fieldsLoop rs none
    else fieldsLoop rs (some (cur ++ [r]))

/-- Go `strings.Fields`: the maximal runs of non-space runes, in order. -/
def stringsFields (s : String) : List String :=
  fieldsLoop s.data none

/-- Go `strings.Join`: the elements with `sep` between consecutive ones. -/
def stringsJoin : List String → String → String
  | [], _ => ""
  | [a], _ => a
  | a :: b :: rest, sep => a ++ sep ++ stringsJoin (b :: rest) sep

/-- The orbit walk of `strings.EqualFold`:
`for r != sr && r < tr { r = unicode.SimpleFold(r) }`, bounded by `fuel` steps.  It is
run with as many steps as there are code points, which no folding orbit exceeds. -/
def foldOrbit (T : CaseTables) (sr tr : Char) : Nat → Char → Char
  | 0, r => r
  | fuel + 1, r =>
    if r ≠ sr ∧ r.toNat < tr.toNat then foldOrbit T sr tr fuel (T.SimpleFold r) else r

/-- One step of `strings.EqualFold`: whether the runes `sr` and `tr` are equal under
simple case folding. -/
def equalFoldRune (T : CaseTables) (sr tr : Char) : Bool :=
  if tr = sr then true
  else
    let lo := if tr.toNat < sr.toNat then tr else sr
    let hi := if tr.toNat < sr.toNat then sr else tr
    if hi.toNat < 0x80 then
      'A'.toNat ≤ lo.toNat && lo.toNat ≤ 'Z'.toNat && hi.toNat == lo.toNat + 32
    else
      foldOrbit T lo hi 0x110000 (T.SimpleFold lo) == hi

/-- The rune loop of `strings.EqualFold`. -/
def equalFoldLoop (T : CaseTables) : List Char → List Char → Bool
  | [], [] => true
  | [], _ :: _ => false
  | _ :: _, [] => false
  | sr :: s, tr :: t => equalFoldRune T sr tr && equalFoldLoop T s t

/-- Go `strings.EqualFold`. -/
def stringsEqualFold (T : CaseTables) (s t : String) : Bool :=
  equalFoldLoop T s.data t.data

/-- A small case table used to evaluate the model on concrete headers: it knows
the two non-ASCII runes whose lower case is ASCII and one Latin-1 pair. -/
def sampleTables : CaseTables where
  lowerCase := fun c =>
    if c.toNat = 0x130 then 'i' else if c.toNat = 0x212A then 'k'
    else if c.toNat = 0xC9 then Char.ofNat 0xE9 else c
  SimpleFold := fun c =>
    if c.toNat = 0xC9 then Char.ofNat 0xE9 else if c.toNat = 0xE9 then Char.ofNat 0xC9
    else if c = 'K' then 'k' else if c = 'k' then Char.ofNat 0x212A
    else if c.toNat = 0x212A then 'K' else c

/-! ## Data model: `internal/models` -/

/-- The record `models.AuthUser`; `ID` is an `int32` in the source and is only copied. -/
structure AuthUser where
  ID : Int
  Role : String
  deriving DecidableEq, Repr

/-- The record `models.ErrorDetail`. -/
structure ErrorDetail where
  Message : String
  Code : String
  RequestID : String
  deriving DecidableEq, Repr

/-- The record `models.ErrorResponse`. -/
structure ErrorResponse where
  Error : ErrorDetail
  deriving DecidableEq, Repr

def ErrCodeUnauthorized : String := "UNAUTHORIZED"
def ErrCodeMissingAuth : String := "MISSING_AUTH_HEADER"
def ErrCodeInvalidToken : String := "INVALID_TOKEN"
def ErrCodeInsufficientPerms : String := "INSUFFICIENT_PERMISSIONS"
def ErrCodeInvalidFormat : String := "INVALID_FORMAT"

def StatusUnauthorized : Nat := 401
def StatusForbidden : Nat := 403

/-! ## The token library -/

/-- The signing method named in a token header; `HMAC` stands for the dynamic type
`*jwt.SigningMethodHMAC`, the other constructors for the remaining methods. -/
inductive SigningMethod
  | HMAC (alg : String)
  | RSA (alg : String)
  | RSAPSS (alg : String)
  | ECDSA (alg : String)
  | Ed25519
  | none
  deriving DecidableEq, Repr

/-- Errors of the token library. -/
inductive JwtError
  | ErrSignatureInvalid
  | ErrTokenMalformed
  | ErrTokenExpired
  | ErrTokenUnverifiable
  | other (msg : String)
  deriving DecidableEq, Repr

/-- Modelled from the spec: the claims record `service.JWTClaims`, whose declaration
is not among the sources; the spec gives it a subject identity (integer) and a role
(string), which are the two fields `Auth` reads. -/
structure JWTClaims where
  UserID : Int
  Role : String
  deriving DecidableEq, Repr

/-- The dynamic value held in `token.Claims`: a `*service.JWTClaims` or a value of
some other type. -/
inductive ClaimsValue
  | jwtClaims (claims : JWTClaims)
  | foreign
  deriving DecidableEq, Repr

/-- The record `jwt.Token`, restricted to the fields read by `Auth`. -/
structure Token where
  Method : SigningMethod
  Claims : ClaimsValue
  Valid : Bool
  deriving DecidableEq, Repr

/-- The type of the key function handed to the parser. -/
abbrev Keyfunc := Token → Except JwtError String

/-- The function `jwt.ParseWithClaims` of the token library, taken as a parameter:
from the token string and the key function it yields a token or an error. -/
abbrev JwtParser := String → Keyfunc → Except JwtError Token

/-! ## Request context and logging -/

/-- A dynamically typed value kept in the request-local store. -/
inductive LocalValue
  | authUser (u : AuthUser)
  | str (s : String)
  | other (typeName : String)
  deriving DecidableEq, Repr

/-- A structured log field (`zap.String`, `zap.Int32`, `zap.Strings`, `zap.Error`). -/
inductive ZapField
  | String (key val : String)
  | Int32 (key : String) (val : Int)
  | Strings (key : String) (vals : List String)
  | Error (err : JwtError)
  deriving DecidableEq, Repr

inductive LogLevel
  | warn
  | info
  deriving DecidableEq, Repr

structure LogEntry where
  level : LogLevel
  msg : String
  fields : List ZapField
  deriving DecidableEq, Repr

/-- A `zap.Logger`; a `*zap.Logger` is an `Option Logger`, `none` being the nil
pointer. -/
structure Logger where
  name : String
  deriving DecidableEq, Repr

/-- One response written with `c.Status(status).JSON(body)`. -/
structure Response where
  status : Nat
  body : ErrorResponse
  deriving DecidableEq, Repr

/-- The state of one request as seen by the middleware: the request headers and
path, the request-local store, the responses written so far, the position in the
handler chain (advanced by `c.Next()`), the token strings handed to the token
parser so far, and the log entries emitted so far. -/
structure Ctx where
  reqHeaders : List (String × String)
  path : String
  locals : List (String × LocalValue)
  written : List Response
  indexHandler : Nat
  parsed : List String
  logs : List LogEntry
  deriving DecidableEq, Repr

/-- A run-time panic of the program. -/
inductive Panic
  | nilDereference
  deriving DecidableEq, Repr

/-- A handler of the chain: it ends with a new state or panics. -/
abbrev Handler := Ctx → Except Panic Ctx

/-- The header lookup `c.Get(key)`: the value, or the empty string when absent.  The
header name is looked up as written. -/
def Ctx.Get (c : Ctx) (key : String) : String :=
  (c.reqHeaders.lookup key).getD ""

/-- The read `c.Locals(key)`. -/
def Ctx.Locals (c : Ctx) (key : String) : Option LocalValue :=
  c.locals.lookup key

/-- The write `c.Locals(key, value)`. -/
def Ctx.setLocals (c : Ctx) (key : String) (value : LocalValue) : Ctx :=
  { c with locals := (key, value) :: c.locals }

/-- The call `c.Next()`: advance the chain position and run the next handler. -/
def Ctx.Next (next : Handler) (c : Ctx) : Except Panic Ctx :=
  next { c with indexHandler := c.indexHandler + 1 }

/-- The method `logger.Warn(msg, fields...)` on a possibly nil logger. -/
def zapWarn (logger : Option Logger) (msg : String) (fields : List ZapField) (c : Ctx) :
    Except Panic Ctx :=
  match logger with
  | Option.none => .error .nilDereference
  | some _ => .ok { c with logs := c.logs ++ [⟨.warn, msg, fields⟩] }

/-- The method `logger.Info(msg, fields...)` on a possibly nil logger. -/
def zapInfo (logger : Option Logger) (msg : String) (fields : List ZapField) (c : Ctx) :
    Except Panic Ctx :=
  match logger with
  | Option.none => .error .nilDereference
  | some _ => .ok { c with logs := c.logs ++ [⟨.info, msg, fields⟩] }

/-! ## `internal/models/errors.go` -/

def NewErrorResponse (message code requestID : String) : ErrorResponse :=
  { Error := { Message := message, Code := code, RequestID := requestID } }

/-- The call `c.Status(status).JSON(...)` is recorded as one more written response;
encoding the record cannot fail, so the returned error is always nil. -/
def SendError (c : Ctx) (status : Nat) (message code requestID : String) : Except Panic Ctx :=
  .ok { c with written := c.written ++ [⟨status, NewErrorResponse message code requestID⟩] }

def SendUnauthorized (c : Ctx) (message requestID : String) : Except Panic Ctx :=
  SendError c StatusUnauthorized message ErrCodeUnauthorized requestID

/-! ## `internal/middleware` -/

def AuthUserKey : String := "authUser"

/-- The package variable `logger` as declared: nil until `InitLogger` is called. -/
def loggerUnset : Option Logger := Option.none

/-- The value of the package variable `logger` after `InitLogger(l)`, whatever it held
before. -/
def InitLogger (l : Option Logger) (_logger : Option Logger) : Option Logger := l

def GetRequestID (c : Ctx) : String :=
  match c.Locals "requestID" with
  | some (.str requestID) => requestID
  | _ => ""

def GetAuthUser (c : Ctx) : Option AuthUser :=
  match c.Locals AuthUserKey with
  | some (.authUser user) => some user
  | _ => Option.none

/-- The key function built inside `Auth`: only HMAC-signed tokens get the secret. -/
def authKeyfunc (jwtSecret : String) : Keyfunc := fun token =>
  match token.Method with
  | .HMAC _ => .ok jwtSecret
  | _ => .error .ErrSignatureInvalid

def Auth (T : CaseTables) (jwtParse : JwtParser) (logger : Option Logger) (jwtSecret : String)
    (next : Handler) : Handler := fun c => do
  let authHeader := c.Get "Authorization"
  if authHeader = "" then
    let c ← if logger ≠ Option.none then
        zapWarn logger "missing authorization header" [.String "path" c.path] c
      else pure c
    SendUnauthorized c "Missing authorization header" (GetRequestID c)
  else
  let authHeaderLower := stringsToLower T authHeader
  if !stringsHasPrefix authHeaderLower "bearer " then
    let c ← if logger ≠ Option.none then
        zapWarn logger "invalid authorization header format" [.String "path" c.path] c
      else pure c
    SendUnauthorized c "Invalid authorization header format. Expected: Bearer <token>"
      (GetRequestID c)
  else
  match stringsFields authHeader with
  | [] | [_] =>
    let c ← if logger ≠ Option.none then
        zapWarn logger "empty token" [.String "path" c.path] c
      else pure c
    SendUnauthorized c "Token is required" (GetRequestID c)
  | part0 :: part1 :: rest =>
  if !stringsEqualFold T part0 "bearer" then
    let c ← if logger ≠ Option.none then
        zapWarn logger "invalid authorization header format" [.String "path" c.path] c
      else pure c
    SendUnauthorized c "Invalid authorization header format. Expected: Bearer <token>"
      (GetRequestID c)
  else
  let tokenString := stringsJoin (part1 :: rest) " "
  if tokenString = "" then
    let c ← if logger ≠ Option.none then
        zapWarn logger "empty token" [.String "path" c.path] c
      else pure c
    SendUnauthorized c "Token is required" (GetRequestID c)
  else
  let c := { c with parsed := c.parsed ++ [tokenString] }
  match jwtParse tokenString (authKeyfunc jwtSecret) with
  | .error err =>
    let c ← if logger ≠ Option.none then
        zapWarn logger "token validation failed" [.Error err, .String "path" c.path] c
      else pure c
    SendError c StatusUnauthorized "Invalid or expired token" ErrCodeInvalidToken (GetRequestID c)
  | .ok token =>
  match token.Claims, token.Valid with
  | .jwtClaims claims, true =>
    let authUser : AuthUser := { ID := claims.UserID, Role := claims.Role }
    let c := c.setLocals AuthUserKey (.authUser authUser)
    let c ← if logger ≠ Option.none then
        zapInfo logger "user authenticated"
          [.Int32 "user_id" authUser.ID, .String "role" authUser.Role, .String "path" c.path] c
      else pure c
    c.Next next
  | _, _ =>
    let c ← if logger ≠ Option.none then
        zapWarn logger "invalid token claims" [.String "path" c.path] c
      else pure c
    SendError c StatusUnauthorized "Invalid token claims" ErrCodeInvalidToken (GetRequestID c)

/-- The loop of `RequireRole` over the allow-list, leaving at the first match. -/
def hasRoleLoop (userRole : String) : List String → Bool
  | [] => false
  | role :: rest => if userRole = role then true else hasRoleLoop userRole rest

def RequireRole (logger : Option Logger) (allowedRoles : List String) (next : Handler) :
    Handler := fun c => do
  match GetAuthUser c with
  | Option.none =>
    let c ← if logger ≠ Option.none then
        zapWarn logger "role check failed: no authenticated user in context"
          [.String "path" c.path] c
      else pure c
    SendUnauthorized c "Unauthorized" (GetRequestID c)
  | some authUser =>
  let hasRole := hasRoleLoop authUser.Role allowedRoles
  if !hasRole then
    let c ← if logger ≠ Option.none then
        zapWarn logger "role check failed: insufficient permissions"
          [.Int32 "user_id" authUser.ID, .String "user_role" authUser.Role,
            .Strings "required_roles" allowedRoles, .String "path" c.path] c
      else pure c
    SendError c StatusForbidden "Forbidden: insufficient permissions" ErrCodeInsufficientPerms
      (GetRequestID c)
  else
  let c ← if logger ≠ Option.none then
      zapInfo logger "role check passed"
        [.Int32 "user_id" authUser.ID, .String "role" authUser.Role, .String "path" c.path] c
    else pure c
  c.Next next

/-! ## `internal/routes`: the chains registered on the route groups -/

/-- The chain of a role-gated group: `Auth(jwtSecret)`, `RequireRole(allowedRoles...)`,
then the route handler. -/
def roleChain (T : CaseTables) (jwtParse : JwtParser) (logger : Option Logger)
    (jwtSecret : String) (allowedRoles : List String) (handler : Handler) : Handler :=
  Auth T jwtParse logger jwtSecret (RequireRole logger allowedRoles handler)

/-- The chain of the `/admin` group as registered: the allow-list is `["admin"]`. -/
def adminChain (T : CaseTables) (jwtParse : JwtParser) (logger : Option Logger)
    (jwtSecret : String) (handler : Handler) : Handler :=
  roleChain T jwtParse logger jwtSecret ["admin"] handler

/-- A route handler that does nothing; used to observe the state in which the
middleware hands over. -/
def finalHandler : Handler := fun c => .ok c

/-- A request with the given `Authorization` header (if any) and nothing else. -/
def mkCtx (authorization : Option String) : Ctx :=
  { reqHeaders := match authorization with
      | some v => [("Authorization", v)]
      | Option.none => [],
    path := "/admin/users", locals := [("requestID", .str "req-1")], written := [],
    indexHandler := 0, parsed := [], logs := [] }

/-- A stand-in for the token parser used to evaluate the model: it accepts exactly the
token `abc.def.ghi` as HMAC-signed with claims `{42, "admin"}`, provided the key
function releases the key `s3cret`. -/
def sampleParser : JwtParser := fun tokenString keyfunc =>
  if tokenString = "abc.def.ghi" then
    let tok : Token := ⟨.HMAC "HS256", .jwtClaims ⟨42, "admin"⟩, false⟩
    match keyfunc tok with
    | .error e => .error e
    | .ok key => if key = "s3cret" then .ok { tok with Valid := true }
        else .error .ErrSignatureInvalid
  else .error .ErrTokenMalformed

/-- A context holding the identity `{7, "Admin"}` and a correlation id. -/
def ctxWithAdminCaps : Ctx :=
  { mkCtx Option.none with
    locals := [("authUser", .authUser ⟨7, "Admin"⟩), ("requestID", .str "req-1")] }

/-- A context whose `authUser` entry is a value of another type. -/
def ctxWithForeignUser : Ctx :=
  { mkCtx Option.none with locals := [("authUser", .other "*models.AuthUser")] }

/-! ## Vocabulary of the statements -/

/-- The state `c` after the guarded log call `if logger != nil { logger.Warn/Info(...) }`. -/
def logged (logger : Option Logger) (entry : LogEntry) (c : Ctx) : Ctx :=
  match logger with
  | Option.none => c
  | some _ => { c with logs := c.logs ++ [entry] }

/-- The middleware `run` stops the chain at `c`: whatever the next handler is, it is
not run, and the outcome is the state `c'`. -/
def StopsWith (run : Handler → Handler) (c c' : Ctx) : Prop :=
  ∀ next : Handler, run next c = .ok c'

/-- The middleware `run` yields control at `c`: its outcome is the outcome of the next
handler, run once on the state `c'`. -/
def YieldsWith (run : Handler → Handler) (c c' : Ctx) : Prop :=
  ∀ next : Handler, run next c = next c'

/-- The candidate token of a header: its fields after the first, rejoined with
single spaces. -/
def candidateToken (authHeader : String) : String :=
  stringsJoin (stringsFields authHeader).tail " "

/-- The state `c'` is `c` after exactly one more response was written, whose status,
whose body fields `message` and `code`, and whose body field `request_id` are the
given status, message and code and the correlation id of the request; the local store
and the chain position are as before. -/
def IsRejection (c c' : Ctx) (status : Nat) (message code : String) : Prop :=
  (∃ r : Response, c'.written = c.written ++ [r] ∧ r.status = status ∧
      r.body.Error.Message = message ∧ r.body.Error.Code = code ∧
      r.body.Error.RequestID = GetRequestID c) ∧
    c'.locals = c.locals ∧ c'.indexHandler = c.indexHandler

/-- The state without its log entries. -/
def Ctx.eraseLogs (c : Ctx) : Ctx := { c with logs := [] }

/-- The middlewares `run` and `run'` take the same decision at `c`: both run the next
handler or both stop, on states that agree in everything but the log. -/
def SameDecision (run run' : Handler → Handler) (c : Ctx) : Prop :=
  ∃ a b, a.eraseLogs = b.eraseLogs ∧
    ((YieldsWith run c a ∧ YieldsWith run' c b) ∨ (StopsWith run c a ∧ StopsWith run' c b))

/-- The five format checks of `Auth` on the header, in the order of the source: the
header is not empty, its lower-cased value starts with `bearer `, it has at least two
fields, the first field folds to `bearer`, and the rejoined rest is not empty. -/
def passesFormatChecks (T : CaseTables) (authHeader : String) : Bool :=
  authHeader ≠ "" && stringsHasPrefix (stringsToLower T authHeader) "bearer " &&
    match stringsFields authHeader with
    | part0 :: part1 :: rest =>
      stringsEqualFold T part0 "bearer" && stringsJoin (part1 :: rest) " " ≠ ""
    | _ => false

/-- The identity that the token parser yields for the candidate token of the header
under the key function of `Auth`, if it accepts the token: no error, claims of the
expected type, and the valid flag set. -/
def verifiedUser (jwtParse : JwtParser) (jwtSecret : String) (authHeader : String) :
    Option AuthUser :=
  match jwtParse (candidateToken authHeader) (authKeyfunc jwtSecret) with
  | .error _ => Option.none
  | .ok token =>
    match token.Claims, token.Valid with
    | .jwtClaims claims, true => some { ID := claims.UserID, Role := claims.Role }
    | _, _ => Option.none

/-- Where a run of `Auth` ends, read off the header alone: rejected with a log
message, possibly a parser error, a response message and a code, after the parser
was or was not called on a token string; or accepted with a token string and an
identity. -/
inductive AuthEnd
  | rejected (logMsg : String) (logErr : Option JwtError) (message code : String)
      (parsed : Option String)
  | accepted (tokenString : String) (authUser : AuthUser)
  deriving DecidableEq, Repr

/-- The decisions of `Auth` in the order of the source, without the effects. -/
def authEnd (T : CaseTables) (jwtParse : JwtParser) (jwtSecret : String)
    (authHeader : String) : AuthEnd :=
  if authHeader = "" then
    .rejected "missing authorization header" Option.none "Missing authorization header"
      ErrCodeUnauthorized Option.none
  else if !stringsHasPrefix (stringsToLower T authHeader) "bearer " then
    .rejected "invalid authorization header format" Option.none
      "Invalid authorization header format. Expected: Bearer <token>" ErrCodeUnauthorized
      Option.none
  else
  match stringsFields authHeader with
  | [] | [_] =>
    .rejected "empty token" Option.none "Token is required" ErrCodeUnauthorized Option.none
  | part0 :: part1 :: rest =>
  if !stringsEqualFold T part0 "bearer" then
    .rejected "invalid authorization header format" Option.none
      "Invalid authorization header format. Expected: Bearer <token>" ErrCodeUnauthorized
      Option.none
  else if stringsJoin (part1 :: rest) " " = "" then
    .rejected "empty token" Option.none "Token is required" ErrCodeUnauthorized Option.none
  else
  match jwtParse (stringsJoin (part1 :: rest) " ") (authKeyfunc jwtSecret) with
  | .error err =>
    .rejected "token validation failed" (some err) "Invalid or expired token"
      ErrCodeInvalidToken (some (stringsJoin (part1 :: rest) " "))
  | .ok token =>
  match token.Claims, token.Valid with
  | .jwtClaims claims, true =>
    .accepted (stringsJoin (part1 :: rest) " ") { ID := claims.UserID, Role := claims.Role }
  | _, _ =>
    .rejected "invalid token claims" Option.none "Invalid token claims" ErrCodeInvalidToken
      (some (stringsJoin (part1 :: rest) " "))

/-- The state `c` after the parser was called on the token string, if it was. -/
def withParsed (c : Ctx) : Option String → Ctx
  | Option.none => c
  | some tokenString => { c with parsed := c.parsed ++ [tokenString] }

/-- The state in which `Auth` ends, or hands over to the next handler, for each end. -/
def endState (logger : Option Logger) (c : Ctx) : AuthEnd → Ctx
  | .rejected logMsg logErr message code parsed =>
    { logged logger ⟨.warn, logMsg,
        (match logErr with
          | some err => [.Error err]
          | Option.none => []) ++ [.String "path" c.path]⟩ (withParsed c parsed) with
      written := c.written ++ [⟨401, ⟨⟨message, code, GetRequestID c⟩⟩⟩] }
  | .accepted tokenString authUser =>
    { logged logger ⟨.info, "user authenticated",
        [.Int32 "user_id" authUser.ID, .String "role" authUser.Role, .String "path" c.path]⟩
        (withParsed c (some tokenString)) with
      locals := (AuthUserKey, .authUser authUser) :: c.locals
      indexHandler := c.indexHandler + 1 }

/-- The effects of `Auth` that go with each end: a rejection stops the chain, an
acceptance runs the next handler. -/
def applyEnd (logger : Option Logger) (next : Handler) (c : Ctx) (e : AuthEnd) :
    Except Panic Ctx :=
  match e with
  | .rejected _ _ _ _ _ => .ok (endState logger c e)
  | .accepted _ _ => next (endState logger c e)

/-- A list of runes without white space. -/
def SpaceFree (l : List Char) : Prop := ∀ c ∈ l, unicodeIsSpace c = false

/-- Whether two adjacent runes of the list are both white space. -/
def spaceRun : List Char → Bool
  | a :: b :: rest => (unicodeIsSpace a && unicodeIsSpace b) || spaceRun (b :: rest)
  | _ => false

/-- A non-empty list of runes that neither starts nor ends with white space and has
no two adjacent white-space runes. -/
def WellSpaced (l : List Char) : Prop :=
  l ≠ [] ∧ (∀ c, l.head? = some c → unicodeIsSpace c = false) ∧
    (∀ c, l.getLast? = some c → unicodeIsSpace c = false) ∧ spaceRun l = false

/-! ## Basic lemmas -/

@[simp] theorem except_ok_bind {ε α β : Type} (a : α) (f : α → Except ε β) :
    (Except.ok a >>= f) = f a := rfl

@[simp] theorem guarded_warn (logger : Option Logger) (msg : String) (fields : List ZapField)
    (c : Ctx) :
    (if logger ≠ Option.none then zapWarn logger msg fields c else pure c)
      = .ok (logged logger ⟨.warn, msg, fields⟩ c) := by
  cases logger <;> simp [zapWarn, logged, pure, Except.pure]

@[simp] theorem guarded_info (logger : Option Logger) (msg : String) (fields : List ZapField)
    (c : Ctx) :
    (if logger ≠ Option.none then zapInfo logger msg fields c else pure c)
      = .ok (logged logger ⟨.info, msg, fields⟩ c) := by
  cases logger <;> simp [zapInfo, logged, pure, Except.pure]

@[simp] theorem logged_locals (logger : Option Logger) (e : LogEntry) (c : Ctx) :
    (logged logger e c).locals = c.locals := by
  cases logger <;> rfl

@[simp] theorem logged_written (logger : Option Logger) (e : LogEntry) (c : Ctx) :
    (logged logger e c).written = c.written := by
  cases logger <;> rfl

@[simp] theorem logged_indexHandler (logger : Option Logger) (e : LogEntry) (c : Ctx) :
    (logged logger e c).indexHandler = c.indexHandler := by
  cases logger <;> rfl

@[simp] theorem logged_parsed (logger : Option Logger) (e : LogEntry) (c : Ctx) :
    (logged logger e c).parsed = c.parsed := by
  cases logger <;> rfl

@[simp] theorem logged_path (logger : Option Logger) (e : LogEntry) (c : Ctx) :
    (logged logger e c).path = c.path := by
  cases logger <;> rfl

@[simp] theorem GetRequestID_logged (logger : Option Logger) (e : LogEntry) (c : Ctx) :
    GetRequestID (logged logger e c) = GetRequestID c := by
  cases logger <;> rfl

@[simp] theorem GetAuthUser_logged (logger : Option Logger) (e : LogEntry) (c : Ctx) :
    GetAuthUser (logged logger e c) = GetAuthUser c := by
  cases logger <;> rfl

theorem hasRoleLoop_iff (userRole : String) (allowedRoles : List String) :
    hasRoleLoop userRole allowedRoles = true ↔ userRole ∈ allowedRoles := by
  induction allowedRoles with
  | nil => simp [hasRoleLoop]
  | cons role rest ih =>
    by_cases h : userRole = role
    · simp [hasRoleLoop, h]
    · simp [hasRoleLoop, h, ih]

/-- The outcome of `RequireRole` when the context holds no identity. -/
theorem RequireRole_of_no_user (logger : Option Logger) (L : List String) (next : Handler)
    (c : Ctx) (h : GetAuthUser c = Option.none) :
    RequireRole logger L next c =
      .ok { logged logger ⟨.warn, "role check failed: no authenticated user in context",
              [.String "path" c.path]⟩ c with
            written := c.written ++
              [⟨401, ⟨⟨"Unauthorized", "UNAUTHORIZED", GetRequestID c⟩⟩⟩] } := by
  cases logger <;>
    simp [RequireRole, h, zapWarn, logged, GetRequestID, Ctx.Locals, SendUnauthorized, SendError,
      NewErrorResponse, StatusUnauthorized, ErrCodeUnauthorized]

/-- The outcome of `RequireRole` when the context holds an identity whose role is not
allowed. -/
theorem RequireRole_of_not_mem (logger : Option Logger) (L : List String) (next : Handler)
    (c : Ctx) (u : AuthUser) (h : GetAuthUser c = some u) (hR : u.Role ∉ L) :
    RequireRole logger L next c =
      .ok { logged logger ⟨.warn, "role check failed: insufficient permissions",
              [.Int32 "user_id" u.ID, .String "user_role" u.Role, .Strings "required_roles" L,
                .String "path" c.path]⟩ c with
            written := c.written ++
              [⟨403, ⟨⟨"Forbidden: insufficient permissions", "INSUFFICIENT_PERMISSIONS",
                GetRequestID c⟩⟩⟩] } := by
  have : hasRoleLoop u.Role L = false := by
    rw [Bool.eq_false_iff]; intro hh; exact hR ((hasRoleLoop_iff _ _).1 hh)
  cases logger <;>
    simp [RequireRole, h, this, zapWarn, logged, GetRequestID, Ctx.Locals, SendError,
      NewErrorResponse, StatusForbidden, ErrCodeInsufficientPerms]

/-- The outcome of `RequireRole` when the context holds an identity whose role is allowed. -/
theorem RequireRole_of_mem (logger : Option Logger) (L : List String) (next : Handler)
    (c : Ctx) (u : AuthUser) (h : GetAuthUser c = some u) (hR : u.Role ∈ L) :
    RequireRole logger L next c =
      next { logged logger ⟨.info, "role check passed",
              [.Int32 "user_id" u.ID, .String "role" u.Role, .String "path" c.path]⟩ c with
            indexHandler := c.indexHandler + 1 } := by
  have : hasRoleLoop u.Role L = true := (hasRoleLoop_iff _ _).2 hR
  cases logger <;> simp [RequireRole, h, this, zapInfo, logged, Ctx.Next]

/-! ## Lemmas on the string functions -/

theorem unicodeToLower_ascii (T T' : CaseTables) (c : Char) (h : c.toNat < 128) :
    unicodeToLower T c = unicodeToLower T' c := by
  have : c.toNat ≤ 0x7F := by omega
  simp [unicodeToLower, this]

theorem equalFoldRune_ascii (T T' : CaseTables) (sr tr : Char) (hs : sr.toNat < 128)
    (ht : tr.toNat < 128) : equalFoldRune T sr tr = equalFoldRune T' sr tr := by
  unfold equalFoldRune
  by_cases h : tr = sr
  · simp [h]
  · have : (if tr.toNat < sr.toNat then sr else tr).toNat < 0x80 := by
      split <;> omega
    simp only [h, if_false, this, if_true]

set_option maxRecDepth 100000 in
theorem ascii_letter_fact :
    ∀ n, n < 128 → ∀ x ∈ ['b', 'e', 'a', 'r'],
      unicodeToLower sampleTables (Char.ofNat n) = x →
        unicodeIsSpace (Char.ofNat n) = false ∧
          equalFoldRune sampleTables (Char.ofNat n) x = true := by
  decide

set_option maxRecDepth 100000 in
theorem ascii_space_fact :
    ∀ n, n < 128 → unicodeToLower sampleTables (Char.ofNat n) = ' ' → Char.ofNat n = ' ' := by
  decide

/-- A rune whose lower case is a letter of `bearer` is that letter in either case:
it is not white space and folds to the letter. -/
theorem lower_letter (T : CaseTables) (hT : T.BearerSafe) (c x : Char)
    (hx : x ∈ ['b', 'e', 'a', 'r']) (h : unicodeToLower T c = x) :
    unicodeIsSpace c = false ∧ equalFoldRune T c x = true := by
  by_cases hc : c.toNat < 128
  · have hx' : x.toNat < 128 := by
      simp only [List.mem_cons, List.mem_singleton, List.not_mem_nil, or_false] at hx
      rcases hx with rfl | rfl | rfl | rfl <;> decide
    have h0 := ascii_letter_fact c.toNat hc x hx
    rw [Char.ofNat_toNat, ← unicodeToLower_ascii T sampleTables c hc] at h0
    rw [equalFoldRune_ascii T sampleTables c x hc hx']
    exact h0 h
  · have hc' : ¬ c.toNat ≤ 0x7F := by omega
    have := hT c (by omega)
    simp only [unicodeToLower, hc', if_false] at h
    rw [h] at this
    exact absurd (by simp only [List.mem_cons]; simp only [List.mem_cons] at hx; tauto) this

/-- The only rune whose lower case is the space is the space. -/
theorem lower_space (T : CaseTables) (hT : T.BearerSafe) (c : Char)
    (h : unicodeToLower T c = ' ') : c = ' ' := by
  by_cases hc : c.toNat < 128
  · have h0 := ascii_space_fact c.toNat hc
    rw [Char.ofNat_toNat, ← unicodeToLower_ascii T sampleTables c hc] at h0
    exact h0 h
  · have hc' : ¬ c.toNat ≤ 0x7F := by omega
    have := hT c (by omega)
    simp only [unicodeToLower, hc', if_false] at h
    rw [h] at this
    exact absurd (by simp) this

theorem bearer_sp_data : ("bearer " : String).data = ['b', 'e', 'a', 'r', 'e', 'r', ' '] := rfl

theorem bearer_data : ("bearer" : String).data = ['b', 'e', 'a', 'r', 'e', 'r'] := rfl

/-- The shape of a header whose lower-cased value starts with `bearer `: six runes
that are no white space and fold to `bearer`, then a space. -/
theorem bearer_prefix_shape (T : CaseTables) (hT : T.BearerSafe) (h : String)
    (hp : stringsHasPrefix (stringsToLower T h) "bearer " = true) :
    ∃ w rest, h.data = w ++ ' ' :: rest ∧ w ≠ [] ∧ (∀ c ∈ w, unicodeIsSpace c = false) ∧
      equalFoldLoop T w ("bearer" : String).data = true := by
  unfold stringsHasPrefix stringsToLower at hp
  rw [bearer_sp_data] at hp
  simp only at hp
  generalize h.data = l at hp
  match l, hp with
  | [], hp | [_], hp | [_, _], hp | [_, _, _], hp | [_, _, _, _], hp | [_, _, _, _, _], hp
  | [_, _, _, _, _, _], hp =>
    simp [List.isPrefixOf_cons₂] at hp
  | c1 :: c2 :: c3 :: c4 :: c5 :: c6 :: c7 :: rest, hp =>
    simp only [List.map_cons, List.isPrefixOf_cons₂, Bool.and_eq_true, beq_iff_eq] at hp
    obtain ⟨h1, h2, h3, h4, h5, h6, h7, -⟩ := hp
    have e1 := lower_letter T hT c1 'b' (by simp) h1.symm
    have e2 := lower_letter T hT c2 'e' (by simp) h2.symm
    have e3 := lower_letter T hT c3 'a' (by simp) h3.symm
    have e4 := lower_letter T hT c4 'r' (by simp) h4.symm
    have e5 := lower_letter T hT c5 'e' (by simp) h5.symm
    have e6 := lower_letter T hT c6 'r' (by simp) h6.symm
    have e7 := lower_space T hT c7 h7.symm
    subst e7
    refine ⟨[c1, c2, c3, c4, c5, c6], rest, rfl, by simp, ?_, ?_⟩
    · intro c hc
      simp only [List.mem_cons, List.mem_singleton, List.not_mem_nil, or_false] at hc
      rcases hc with rfl | rfl | rfl | rfl | rfl | rfl
      exacts [e1.1, e2.1, e3.1, e4.1, e5.1, e6.1]
    · rw [bearer_data]
      simp [equalFoldLoop, e1.2, e2.2, e3.2, e4.2, e5.2, e6.2]

/-- Every field produced by the scanning loop is non-empty and free of white space. -/
theorem fieldsLoop_fields (rs : List Char) :
    (∀ f ∈ fieldsLoop rs none, f.data ≠ [] ∧ SpaceFree f.data) ∧
    (∀ cur, cur ≠ [] → SpaceFree cur →
      ∀ f ∈ fieldsLoop rs (some cur), f.data ≠ [] ∧ SpaceFree f.data) := by
  induction rs with
  | nil =>
    refine ⟨by simp [fieldsLoop], ?_⟩
    intro cur hne hsf f hf
    simp only [fieldsLoop, List.mem_singleton] at hf
    subst hf
    exact ⟨hne, hsf⟩
  | cons r rs ih =>
    refine ⟨?_, ?_⟩
    · intro f hf
      by_cases hr : unicodeIsSpace r = true
      · simp only [fieldsLoop, hr, if_true] at hf
        exact ih.1 f hf
      · simp only [fieldsLoop, hr] at hf
        refine ih.2 [r] (by simp) ?_ f hf
        intro c hc
        simp only [List.mem_singleton] at hc
        subst hc
        simpa using hr
    · intro cur hne hsf f hf
      by_cases hr : unicodeIsSpace r = true
      · simp only [fieldsLoop, hr, if_true, List.mem_cons] at hf
        rcases hf with rfl | hf
        · exact ⟨hne, hsf⟩
        · exact ih.1 f hf
      · simp only [fieldsLoop, hr] at hf
        refine ih.2 (cur ++ [r]) (by simp) ?_ f hf
        intro c hc
        simp only [List.mem_append, List.mem_singleton] at hc
        rcases hc with hc | rfl
        · exact hsf c hc
        · simpa using hr

/-- The scanning loop on a white-space-free word followed by a space. -/
theorem fieldsLoop_word (w rest : List Char) (hw : SpaceFree w) :
    (w ≠ [] → fieldsLoop (w ++ ' ' :: rest) none = ⟨w⟩ :: fieldsLoop rest none) ∧
    (∀ cur, fieldsLoop (w ++ ' ' :: rest) (some cur) = ⟨cur ++ w⟩ :: fieldsLoop rest none) := by
  have hsp : unicodeIsSpace ' ' = true := by decide
  induction w with
  | nil =>
    refine ⟨fun h => absurd rfl h, ?_⟩
    intro cur
    simp [fieldsLoop, hsp]
  | cons r w ih =>
    have hr : unicodeIsSpace r = false := hw r (by simp)
    have ih' := ih (fun c hc => hw c (by simp [hc]))
    refine ⟨fun _ => ?_, fun cur => ?_⟩
    · simp only [List.cons_append, fieldsLoop, hr]
      simpa using ih'.2 [r]
    · simp only [List.cons_append, fieldsLoop, hr]
      simpa using ih'.2 (cur ++ [r])

theorem spaceRun_of_spaceFree (l : List Char) (h : SpaceFree l) : spaceRun l = false := by
  induction l with
  | nil => rfl
  | cons a l ih =>
    cases l with
    | nil => rfl
    | cons b l =>
      have ha : unicodeIsSpace a = false := h a (by simp)
      have := ih (fun c hc => h c (by simp [hc]))
      simp [spaceRun, ha, this]

theorem wellSpaced_of_spaceFree (l : List Char) (hne : l ≠ []) (h : SpaceFree l) :
    WellSpaced l := by
  refine ⟨hne, ?_, ?_, spaceRun_of_spaceFree l h⟩
  · intro c hc
    exact h c (List.mem_of_mem_head? hc)
  · intro c hc
    exact h c (List.mem_of_mem_getLast? hc)

theorem spaceRun_word_sep (w J : List Char) (hw : SpaceFree w) (hne : w ≠ [])
    (hJ : WellSpaced J) : spaceRun (w ++ ' ' :: J) = false := by
  obtain ⟨hJne, hJhead, -, hJrun⟩ := hJ
  induction w with
  | nil => exact absurd rfl hne
  | cons a w ih =>
    have ha : unicodeIsSpace a = false := hw a (by simp)
    cases w with
    | nil =>
      cases J with
      | nil => exact absurd rfl hJne
      | cons j J =>
        have hj : unicodeIsSpace j = false := hJhead j rfl
        simp [spaceRun, ha, hj, hJrun]
    | cons b w =>
      have := ih (fun c hc => hw c (by simp [hc])) (by simp)
      simp only [List.cons_append] at this
      simp [spaceRun, ha, this]

theorem wellSpaced_word_sep (w J : List Char) (hw : SpaceFree w) (hne : w ≠ [])
    (hJ : WellSpaced J) : WellSpaced (w ++ ' ' :: J) := by
  refine ⟨by simp, ?_, ?_, spaceRun_word_sep w J hw hne hJ⟩
  · intro c hc
    cases w with
    | nil => exact absurd rfl hne
    | cons a w =>
      simp only [List.cons_append, List.head?_cons, Option.some.injEq] at hc
      subst hc
      exact hw a (by simp)
  · intro c hc
    have hJne : J ≠ [] := hJ.1
    have : (w ++ ' ' :: J).getLast? = J.getLast? := by
      rw [List.getLast?_append_of_ne_nil _ (by simp)]
      cases J with
      | nil => exact absurd rfl hJne
      | cons j J => simp [List.getLast?_cons_cons]
    rw [this] at hc
    exact hJ.2.2.1 c hc

/-- Fields joined with single spaces form a non-empty string without leading, trailing
or consecutive white space. -/
theorem join_wellSpaced (f : String) (fs : List String)
    (h : ∀ g ∈ f :: fs, g.data ≠ [] ∧ SpaceFree g.data) :
    WellSpaced (stringsJoin (f :: fs) " ").data := by
  induction fs generalizing f with
  | nil =>
    have := h f (by simp)
    exact wellSpaced_of_spaceFree _ this.1 this.2
  | cons g fs ih =>
    have hf := h f (by simp)
    have hJ := ih g (fun k hk => h k (by simp [hk]))
    have : (stringsJoin (f :: g :: fs) " ").data =
        f.data ++ ' ' :: (stringsJoin (g :: fs) " ").data := by
      simp [stringsJoin, String.data_append]
    rw [this]
    exact wellSpaced_word_sep _ _ hf.2 hf.1 hJ

/-- The function `Auth` is its decisions followed by the effects of the end reached. -/
theorem Auth_eq (T : CaseTables) (jwtParse : JwtParser) (logger : Option Logger)
    (jwtSecret : String) (next : Handler) (c : Ctx) :
    Auth T jwtParse logger jwtSecret next c =
      applyEnd logger next c (authEnd T jwtParse jwtSecret (c.Get "Authorization")) := by
  unfold Auth authEnd
  simp only []
  repeat' split
  all_goals
    cases logger <;>
      simp_all [applyEnd, endState, zapWarn, zapInfo, logged, withParsed, SendUnauthorized,
        SendError, NewErrorResponse, GetRequestID, Ctx.Locals, Ctx.setLocals, Ctx.Next,
        StatusUnauthorized]

theorem Auth_rejected (T : CaseTables) (jwtParse : JwtParser) (logger : Option Logger)
    (jwtSecret : String) (c : Ctx) (logMsg : String) (logErr : Option JwtError)
    (message code : String) (parsed : Option String)
    (h : authEnd T jwtParse jwtSecret (c.Get "Authorization") =
      .rejected logMsg logErr message code parsed) :
    StopsWith (Auth T jwtParse logger jwtSecret) c
      (endState logger c (.rejected logMsg logErr message code parsed)) := by
  intro next
  rw [Auth_eq, h]
  rfl

theorem Auth_accepted (T : CaseTables) (jwtParse : JwtParser) (logger : Option Logger)
    (jwtSecret : String) (c : Ctx) (tokenString : String) (authUser : AuthUser)
    (h : authEnd T jwtParse jwtSecret (c.Get "Authorization") =
      .accepted tokenString authUser) :
    YieldsWith (Auth T jwtParse logger jwtSecret) c
      (endState logger c (.accepted tokenString authUser)) := by
  intro next
  rw [Auth_eq, h]
  rfl

theorem endState_rejected_isRejection (logger : Option Logger) (c : Ctx) (logMsg : String)
    (logErr : Option JwtError) (message code : String) (parsed : Option String) :
    IsRejection c (endState logger c (.rejected logMsg logErr message code parsed))
      401 message code := by
  cases parsed <;>
    exact ⟨⟨_, rfl, rfl, rfl, rfl, rfl⟩, by simp [endState, withParsed],
      by simp [endState, withParsed]⟩

theorem endState_rejected_parsed (logger : Option Logger) (c : Ctx) (logMsg : String)
    (logErr : Option JwtError) (message code : String) (parsed : Option String) :
    (endState logger c (.rejected logMsg logErr message code parsed)).parsed =
      (withParsed c parsed).parsed := by
  simp [endState]

theorem endState_accepted (logger : Option Logger) (c : Ctx) (tokenString : String)
    (authUser : AuthUser) :
    (endState logger c (.accepted tokenString authUser)).written = c.written ∧
    (endState logger c (.accepted tokenString authUser)).locals =
      (AuthUserKey, .authUser authUser) :: c.locals ∧
    (endState logger c (.accepted tokenString authUser)).indexHandler = c.indexHandler + 1 ∧
    (endState logger c (.accepted tokenString authUser)).parsed = c.parsed ++ [tokenString] ∧
    GetAuthUser (endState logger c (.accepted tokenString authUser)) = some authUser ∧
    GetRequestID (endState logger c (.accepted tokenString authUser)) = GetRequestID c := by
  simp [endState, withParsed, GetAuthUser, GetRequestID, Ctx.Locals, AuthUserKey, List.lookup]

theorem endState_eraseLogs (logger logger' : Option Logger) (c : Ctx) (e : AuthEnd) :
    (endState logger c e).eraseLogs = (endState logger' c e).eraseLogs := by
  cases e <;> cases logger <;> cases logger' <;> rfl

/-- Under the two conditions on the header, the fields are the scheme word, which
folds to `bearer`, and at least one more field, and the candidate token is well spaced. -/
theorem fields_of_bearer (T : CaseTables) (hT : T.BearerSafe) (h : String)
    (hp : stringsHasPrefix (stringsToLower T h) "bearer " = true)
    (hf : 2 ≤ (stringsFields h).length) :
    ∃ part0 part1 rest, stringsFields h = part0 :: part1 :: rest ∧
      stringsEqualFold T part0 "bearer" = true ∧
      WellSpaced (stringsJoin (part1 :: rest) " ").data := by
  obtain ⟨w, tl, hdata, hne, hsf, hfold⟩ := bearer_prefix_shape T hT h hp
  have hfields : stringsFields h = ⟨w⟩ :: fieldsLoop tl none := by
    unfold stringsFields
    rw [hdata]
    exact (fieldsLoop_word w tl hsf).1 hne
  rw [hfields] at hf
  match hrest : fieldsLoop tl none, hf with
  | [], hf => simp at hf
  | part1 :: rest, _ =>
    refine ⟨⟨w⟩, part1, rest, by rw [hfields, hrest], hfold, ?_⟩
    apply join_wellSpaced
    intro g hg
    exact (fieldsLoop_fields tl).1 g (by rw [hrest]; exact hg)

theorem string_ne_empty_of_data (s : String) (h : s.data ≠ []) : s ≠ "" := by
  intro hs
  subst hs
  exact h rfl

/-- Under the two conditions on the header, all five format checks pass. -/
theorem passesFormatChecks_of_bearer (T : CaseTables) (hT : T.BearerSafe) (h : String)
    (hp : stringsHasPrefix (stringsToLower T h) "bearer " = true)
    (hf : 2 ≤ (stringsFields h).length) : passesFormatChecks T h = true := by
  obtain ⟨p0, p1, rest, hfields, hfold, hws⟩ := fields_of_bearer T hT h hp hf
  obtain ⟨w, tl, hdata, -⟩ := bearer_prefix_shape T hT h hp
  have hne : h ≠ "" := string_ne_empty_of_data h (by rw [hdata]; simp)
  have htok : stringsJoin (p1 :: rest) " " ≠ "" := string_ne_empty_of_data _ hws.1
  simp [passesFormatChecks, hne, hp, hfields, hfold, htok]

/-- When the format checks pass, `Auth` ends as the token parser decides. -/
theorem authEnd_of_format (T : CaseTables) (jwtParse : JwtParser) (jwtSecret h : String)
    (hfmt : passesFormatChecks T h = true) :
    authEnd T jwtParse jwtSecret h =
      match jwtParse (candidateToken h) (authKeyfunc jwtSecret) with
      | .error err =>
        .rejected "token validation failed" (some err) "Invalid or expired token"
          ErrCodeInvalidToken (some (candidateToken h))
      | .ok token =>
        match token.Claims, token.Valid with
        | .jwtClaims claims, true =>
          .accepted (candidateToken h) { ID := claims.UserID, Role := claims.Role }
        | _, _ =>
          .rejected "invalid token claims" Option.none "Invalid token claims"
            ErrCodeInvalidToken (some (candidateToken h)) := by
  unfold passesFormatChecks at hfmt
  match hfields : stringsFields h, hfmt with
  | [], hfmt | [_], hfmt => simp at hfmt
  | p0 :: p1 :: rest, hfmt =>
    simp only [Bool.and_eq_true, decide_eq_true_eq] at hfmt
    obtain ⟨⟨hne, hp⟩, hfold, htok⟩ := hfmt
    simp [authEnd, candidateToken, hne, hp, hfields, hfold, htok]

/-- When the format checks fail, `Auth` ends with a rejection coded `UNAUTHORIZED`
before the parser is called. -/
theorem authEnd_of_not_format (T : CaseTables) (jwtParse : JwtParser) (jwtSecret h : String)
    (hfmt : passesFormatChecks T h = false) :
    ∃ logMsg message, authEnd T jwtParse jwtSecret h =
      .rejected logMsg Option.none message ErrCodeUnauthorized Option.none := by
  unfold passesFormatChecks at hfmt
  unfold authEnd
  split
  · exact ⟨_, _, rfl⟩
  · split
    · exact ⟨_, _, rfl⟩
    · split
      · exact ⟨_, _, rfl⟩
      · exact ⟨_, _, rfl⟩
      · split
        · exact ⟨_, _, rfl⟩
        · split
          · exact ⟨_, _, rfl⟩
          · simp_all

/-! ## The authenticator `Auth`: format-level failures -/

theorem authEnd_of_empty (T : CaseTables) (jwtParse : JwtParser) (jwtSecret h : String)
    (he : h = "") :
    authEnd T jwtParse jwtSecret h =
      .rejected "missing authorization header" Option.none "Missing authorization header"
        "UNAUTHORIZED" Option.none := by
  simp [authEnd, he, ErrCodeUnauthorized]

theorem authEnd_of_other_scheme (T : CaseTables) (jwtParse : JwtParser) (jwtSecret h : String)
    (hne : h ≠ "") (hp : stringsHasPrefix (stringsToLower T h) "bearer " = false) :
    authEnd T jwtParse jwtSecret h =
      .rejected "invalid authorization header format" Option.none
        "Invalid authorization header format. Expected: Bearer <token>" "UNAUTHORIZED"
        Option.none := by
  simp [authEnd, hne, hp, ErrCodeUnauthorized]

theorem authEnd_of_few_fields (T : CaseTables) (jwtParse : JwtParser) (jwtSecret h : String)
    (hne : h ≠ "") (hp : stringsHasPrefix (stringsToLower T h) "bearer " = true)
    (hf : (stringsFields h).length < 2) :
    authEnd T jwtParse jwtSecret h =
      .rejected "empty token" Option.none "Token is required" "UNAUTHORIZED" Option.none := by
  match hfields : stringsFields h, hf with
  | [], _ => simp [authEnd, hne, hp, hfields, ErrCodeUnauthorized]
  | [_], _ => simp [authEnd, hne, hp, hfields, ErrCodeUnauthorized]
  | _ :: _ :: _, hf => simp at hf; omega

/-- C4: when the `Authorization` header is absent or empty, or its lower-cased value
does not start with `bearer `, or it has fewer than two white-space-separated fields,
`Auth` writes one response with status 401 and code `UNAUTHORIZED`, whatever the token
parser is and without calling it, stores no identity and does not run the next handler. -/
theorem Auth_format_failure (T : CaseTables) (logger : Option Logger) (jwtSecret : String)
    (c : Ctx)
    (h : c.reqHeaders.lookup "Authorization" = Option.none ∨ c.Get "Authorization" = "" ∨
      stringsHasPrefix (stringsToLower T (c.Get "Authorization")) "bearer " = false ∨
      (stringsFields (c.Get "Authorization")).length < 2) :
    ∃ c' message, (∀ jwtParse, StopsWith (Auth T jwtParse logger jwtSecret) c c') ∧
      IsRejection c c' 401 message "UNAUTHORIZED" ∧ c'.parsed = c.parsed ∧
      GetAuthUser c' = GetAuthUser c := by
  have key : ∃ logMsg message, ∀ jwtParse, authEnd T jwtParse jwtSecret (c.Get "Authorization")
      = .rejected logMsg Option.none message "UNAUTHORIZED" Option.none := by
    by_cases he : c.Get "Authorization" = ""
    · exact ⟨_, _, fun p => authEnd_of_empty T p jwtSecret _ he⟩
    · by_cases hp : stringsHasPrefix (stringsToLower T (c.Get "Authorization")) "bearer " = true
      · have hf : (stringsFields (c.Get "Authorization")).length < 2 := by
          rcases h with h | h | h | h
          · exact absurd (by simp [Ctx.Get, h]) he
          · exact absurd h he
          · rw [hp] at h; exact absurd h (by simp)
          · exact h
        exact ⟨_, _, fun p => authEnd_of_few_fields T p jwtSecret _ he hp hf⟩
      · exact ⟨_, _, fun p => authEnd_of_other_scheme T p jwtSecret _ he (by simpa using hp)⟩
  obtain ⟨logMsg, message, hend⟩ := key
  refine ⟨_, message, fun p => Auth_rejected T p logger jwtSecret c _ _ _ _ _ (hend p),
    endState_rejected_isRejection _ _ _ _ _ _ _, ?_, ?_⟩
  · simp [endState, withParsed]
  · simp [endState, withParsed, GetAuthUser, Ctx.Locals]

theorem Auth_format_failure_witness :
    ((mkCtx (some "Basic dXNlcjpwdw==")).reqHeaders.lookup "Authorization" = Option.none ∨
      (mkCtx (some "Basic dXNlcjpwdw==")).Get "Authorization" = "" ∨
      stringsHasPrefix (stringsToLower sampleTables
        ((mkCtx (some "Basic dXNlcjpwdw==")).Get "Authorization")) "bearer " = false ∨
      (stringsFields ((mkCtx (some "Basic dXNlcjpwdw==")).Get "Authorization")).length < 2) ∧
    ∃ c' message, (∀ jwtParse, StopsWith (Auth sampleTables jwtParse Option.none "s3cret")
        (mkCtx (some "Basic dXNlcjpwdw==")) c') ∧
      IsRejection (mkCtx (some "Basic dXNlcjpwdw==")) c' 401 message "UNAUTHORIZED" ∧
      c'.parsed = (mkCtx (some "Basic dXNlcjpwdw==")).parsed ∧
      GetAuthUser c' = GetAuthUser (mkCtx (some "Basic dXNlcjpwdw==")) :=
  ⟨Or.inr (Or.inr (Or.inl (by decide))),
    Auth_format_failure sampleTables Option.none "s3cret" (mkCtx (some "Basic dXNlcjpwdw=="))
      (Or.inr (Or.inr (Or.inl (by decide))))⟩

/-- C7 as stated fails: for the header `Token xyz` the response written by `Auth` does
not carry the code `INVALID_FORMAT`. -/
theorem Auth_wrong_scheme_code_not_invalid_format :
    ¬ ∃ c' r, Auth sampleTables sampleParser Option.none "s3cret" finalHandler
        (mkCtx (some "Token xyz")) = .ok c' ∧ r ∈ c'.written ∧
        r.body.Error.Code = ErrCodeInvalidFormat := by
  rintro ⟨c', r, hrun, hr, hcode⟩
  have hend := Auth_rejected sampleTables sampleParser Option.none "s3cret"
    (mkCtx (some "Token xyz")) _ _ _ _ _
    (authEnd_of_other_scheme sampleTables sampleParser "s3cret" _ (by decide) (by decide))
  rw [hend finalHandler] at hrun
  injection hrun with hrun
  subst hrun
  simp only [endState, mkCtx, withParsed, logged, List.nil_append, List.mem_singleton] at hr
  subst hr
  revert hcode
  decide

/-- C7, amended: missing-credential and invalid-format failures of `Auth` are not
distinguished by the error code.  For the header `Token xyz`, and for every header
whose scheme word (its first field) does not fold to `bearer`, the 401 response
carries the code `UNAUTHORIZED`; for the header `bearer ` and for an absent header it
carries the same code `UNAUTHORIZED`; so does every header that fails a format check.
The codes `INVALID_FORMAT` and `MISSING_AUTH_HEADER` are different strings, and neither
is the code sent. -/
theorem Auth_format_failures_share_code (T : CaseTables) (jwtParse : JwtParser)
    (logger : Option Logger) (jwtSecret : String) (c : Ctx) :
    (c.Get "Authorization" = "Token xyz" →
      ∃ c' message, StopsWith (Auth T jwtParse logger jwtSecret) c c' ∧
        IsRejection c c' 401 message "UNAUTHORIZED") ∧
    (∀ part0, (stringsFields (c.Get "Authorization")).head? = some part0 →
      stringsEqualFold T part0 "bearer" = false →
      ∃ c' message, StopsWith (Auth T jwtParse logger jwtSecret) c c' ∧
        IsRejection c c' 401 message "UNAUTHORIZED") ∧
    (c.Get "Authorization" = "bearer " →
      ∃ c' message, StopsWith (Auth T jwtParse logger jwtSecret) c c' ∧
        IsRejection c c' 401 message "UNAUTHORIZED") ∧
    (c.reqHeaders.lookup "Authorization" = Option.none →
      ∃ c' message, StopsWith (Auth T jwtParse logger jwtSecret) c c' ∧
        IsRejection c c' 401 message "UNAUTHORIZED") ∧
    (passesFormatChecks T (c.Get "Authorization") = false →
      ∃ c' message, StopsWith (Auth T jwtParse logger jwtSecret) c c' ∧
        IsRejection c c' 401 message "UNAUTHORIZED") ∧
    ErrCodeInvalidFormat ≠ ErrCodeMissingAuth ∧
    ErrCodeInvalidFormat ≠ "UNAUTHORIZED" ∧ ErrCodeMissingAuth ≠ "UNAUTHORIZED" := by
  have gen : passesFormatChecks T (c.Get "Authorization") = false →
      ∃ c' message, StopsWith (Auth T jwtParse logger jwtSecret) c c' ∧
        IsRejection c c' 401 message "UNAUTHORIZED" := by
    intro hfmt
    obtain ⟨logMsg, message, hend⟩ := authEnd_of_not_format T jwtParse jwtSecret _ hfmt
    exact ⟨_, message, Auth_rejected T jwtParse logger jwtSecret c _ _ _ _ _ hend,
      endState_rejected_isRejection _ _ _ _ _ _ _⟩
  refine ⟨?_, ?_, ?_, ?_, gen, by decide, by decide, by decide⟩
  · intro h
    apply gen
    rw [h]
    rfl
  · intro part0 hhead hfold
    apply gen
    unfold passesFormatChecks
    match hfields : stringsFields (c.Get "Authorization"), hhead with
    | [p], hhead => simp
    | p :: q :: rest, hhead =>
      simp only [List.head?_cons, Option.some.injEq] at hhead
      subst hhead
      simp [hfold]
  · intro h
    apply gen
    rw [h]
    rfl
  · intro h
    apply gen
    have he : c.Get "Authorization" = "" := by simp [Ctx.Get, h]
    rw [he]
    rfl

theorem Auth_format_failures_share_code_witness :
    (mkCtx (some "bearer ")).Get "Authorization" = "bearer " ∧
    ∃ c' message, StopsWith (Auth sampleTables sampleParser Option.none "s3cret")
        (mkCtx (some "bearer ")) c' ∧
      IsRejection (mkCtx (some "bearer ")) c' 401 message "UNAUTHORIZED" :=
  ⟨by decide,
    (Auth_format_failures_share_code sampleTables sampleParser Option.none "s3cret"
      (mkCtx (some "bearer "))).2.2.1 (by decide)⟩

/-! ## The authenticator `Auth`: token verification -/

/-- C10: for a header whose lower-cased value starts with `bearer ` and which has at
least two fields, the first field folds to `bearer` and the candidate token is a
non-empty string without leading, trailing or consecutive white space; so the second
scheme check and the second empty-token check of `Auth` never fire, all format checks
pass, and `Auth` hands the candidate token to the token parser. -/
theorem Auth_second_checks_unreachable (T : CaseTables) (hT : T.BearerSafe) (h : String)
    (hp : stringsHasPrefix (stringsToLower T h) "bearer " = true)
    (hf : 2 ≤ (stringsFields h).length) :
    (∃ part0, (stringsFields h).head? = some part0 ∧
      stringsEqualFold T part0 "bearer" = true) ∧
    candidateToken h ≠ "" ∧ WellSpaced (candidateToken h).data ∧
    passesFormatChecks T h = true ∧
    ∀ (jwtParse : JwtParser) (logger : Option Logger) (jwtSecret : String) (c : Ctx),
      c.Get "Authorization" = h →
      ∃ c', Auth T jwtParse logger jwtSecret finalHandler c = .ok c' ∧
        c'.parsed = c.parsed ++ [candidateToken h] := by
  obtain ⟨p0, p1, rest, hfields, hfold, hws⟩ := fields_of_bearer T hT h hp hf
  have hcand : candidateToken h = stringsJoin (p1 :: rest) " " := by
    simp [candidateToken, hfields]
  have hfmt := passesFormatChecks_of_bearer T hT h hp hf
  refine ⟨⟨p0, by simp [hfields], hfold⟩, ?_, ?_, hfmt, ?_⟩
  · rw [hcand]; exact string_ne_empty_of_data _ hws.1
  · rw [hcand]; exact hws
  · intro jwtParse logger jwtSecret c hc
    have hend := authEnd_of_format T jwtParse jwtSecret h hfmt
    rw [Auth_eq, hc, hend]
    cases hparse : jwtParse (candidateToken h) (authKeyfunc jwtSecret) with
    | error err => exact ⟨_, rfl, by simp [endState, withParsed]⟩
    | ok token =>
      rcases token with ⟨m, cl, v⟩
      cases cl <;> cases v <;> exact ⟨_, rfl, by simp [endState, withParsed]⟩

theorem sampleTables_bearerSafe : sampleTables.BearerSafe := by
  intro c hc hmem
  have hlow : (sampleTables.lowerCase c = 'i' ∨ sampleTables.lowerCase c = 'k' ∨
      sampleTables.lowerCase c = Char.ofNat 0xE9) ∨ sampleTables.lowerCase c = c := by
    unfold sampleTables
    simp only
    split_ifs <;> simp
  simp only [List.mem_cons, List.mem_singleton, List.not_mem_nil, or_false] at hmem
  rcases hlow with (h | h | h) | h
  · rw [h] at hmem; revert hmem; decide
  · rw [h] at hmem; revert hmem; decide
  · rw [h] at hmem; revert hmem; decide
  · rw [h] at hmem
    rcases hmem with rfl | rfl | rfl | rfl | rfl <;> revert hc <;> decide

theorem Auth_second_checks_unreachable_witness :
    sampleTables.BearerSafe ∧
    stringsHasPrefix (stringsToLower sampleTables "BEARER  abc.def.ghi  x ") "bearer " = true ∧
    2 ≤ (stringsFields "BEARER  abc.def.ghi  x ").length ∧
    candidateToken "BEARER  abc.def.ghi  x " = "abc.def.ghi x" ∧
    WellSpaced (candidateToken "BEARER  abc.def.ghi  x ").data ∧
    passesFormatChecks sampleTables "BEARER  abc.def.ghi  x " = true :=
  ⟨sampleTables_bearerSafe, by decide, by decide, by decide,
    (Auth_second_checks_unreachable sampleTables sampleTables_bearerSafe
      "BEARER  abc.def.ghi  x " (by decide) (by decide)).2.2.1,
    (Auth_second_checks_unreachable sampleTables sampleTables_bearerSafe
      "BEARER  abc.def.ghi  x " (by decide) (by decide)).2.2.2.1⟩

/-- C2: when the lower-cased header starts with `bearer `, the header has at least two
fields, and the token parser accepts the candidate token under the key function of the
configured secret with claims `{I, R}`, then `Auth` writes no response, runs the next
handler, and the identity that `GetAuthUser` returns on the context handed over is
exactly `{ID: I, Role: R}`. -/
theorem Auth_accepts_verified_token (T : CaseTables) (hT : T.BearerSafe)
    (jwtParse : JwtParser) (logger : Option Logger) (jwtSecret : String) (c : Ctx)
    (I : Int) (R : String) (token : Token)
    (hp : stringsHasPrefix (stringsToLower T (c.Get "Authorization")) "bearer " = true)
    (hf : 2 ≤ (stringsFields (c.Get "Authorization")).length)
    (hparse : jwtParse (candidateToken (c.Get "Authorization")) (authKeyfunc jwtSecret)
      = .ok token)
    (hclaims : token.Claims = .jwtClaims ⟨I, R⟩) (hvalid : token.Valid = true) :
    ∃ c', YieldsWith (Auth T jwtParse logger jwtSecret) c c' ∧ c'.written = c.written ∧
      GetAuthUser c' = some ⟨I, R⟩ ∧ c'.indexHandler = c.indexHandler + 1 := by
  have hfmt := passesFormatChecks_of_bearer T hT _ hp hf
  have hend := authEnd_of_format T jwtParse jwtSecret _ hfmt
  rw [hparse] at hend
  rcases token with ⟨m, cl, v⟩
  simp only at hclaims hvalid
  subst hclaims hvalid
  simp only at hend
  have e := endState_accepted logger c (candidateToken (c.Get "Authorization")) ⟨I, R⟩
  exact ⟨_, Auth_accepted T jwtParse logger jwtSecret c _ _ hend, e.1, e.2.2.2.2.1, e.2.2.1⟩

theorem Auth_accepts_verified_token_witness :
    sampleTables.BearerSafe ∧
    sampleParser (candidateToken ((mkCtx (some "Bearer abc.def.ghi")).Get "Authorization"))
      (authKeyfunc "s3cret") = .ok ⟨.HMAC "HS256", .jwtClaims ⟨42, "admin"⟩, true⟩ ∧
    ∃ c', YieldsWith (Auth sampleTables sampleParser Option.none "s3cret")
        (mkCtx (some "Bearer abc.def.ghi")) c' ∧
      c'.written = (mkCtx (some "Bearer abc.def.ghi")).written ∧
      GetAuthUser c' = some ⟨42, "admin"⟩ ∧
      c'.indexHandler = (mkCtx (some "Bearer abc.def.ghi")).indexHandler + 1 :=
  ⟨sampleTables_bearerSafe, rfl,
    Auth_accepts_verified_token sampleTables sampleTables_bearerSafe sampleParser Option.none
      "s3cret" (mkCtx (some "Bearer abc.def.ghi")) 42 "admin"
      ⟨.HMAC "HS256", .jwtClaims ⟨42, "admin"⟩, true⟩ (by decide) (by decide) rfl
      rfl rfl⟩

/-- C3: when the header passes the format checks of `Auth` and the token parser rejects
the candidate token (it returns an error, or a token whose claims are not of the
expected type or whose valid flag is unset), `Auth` writes one response with status 401
and code `INVALID_TOKEN`, does not run the next handler and leaves the local store, and
so the identity returned by `GetAuthUser`, unchanged.  The key function of `Auth`
refuses the key, with the invalid-signature error, to every token whose signing method
is not an HMAC method. -/
theorem Auth_rejects_unverified_token (T : CaseTables) (jwtParse : JwtParser)
    (logger : Option Logger) (jwtSecret : String) (c : Ctx)
    (hfmt : passesFormatChecks T (c.Get "Authorization") = true)
    (hrej : (∃ err, jwtParse (candidateToken (c.Get "Authorization")) (authKeyfunc jwtSecret)
        = .error err) ∨
      ∃ token, jwtParse (candidateToken (c.Get "Authorization")) (authKeyfunc jwtSecret)
        = .ok token ∧ (token.Valid = false ∨ token.Claims = .foreign)) :
    (∃ c' message, StopsWith (Auth T jwtParse logger jwtSecret) c c' ∧
      IsRejection c c' 401 message "INVALID_TOKEN" ∧ GetAuthUser c' = GetAuthUser c) ∧
    (∀ token : Token, (∀ alg, token.Method ≠ .HMAC alg) →
      authKeyfunc jwtSecret token = .error .ErrSignatureInvalid) := by
  refine ⟨?_, ?_⟩
  · have hend := authEnd_of_format T jwtParse jwtSecret _ hfmt
    have key : ∃ logMsg logErr message parsed,
        authEnd T jwtParse jwtSecret (c.Get "Authorization") =
          .rejected logMsg logErr message "INVALID_TOKEN" parsed := by
      rcases hrej with ⟨err, he⟩ | ⟨token, he, hbad⟩
      · rw [he] at hend
        exact ⟨_, _, _, _, hend⟩
      · rw [he] at hend
        rcases token with ⟨m, cl, v⟩
        simp only at hbad
        rcases hbad with rfl | rfl
        · cases cl <;> exact ⟨_, _, _, _, hend⟩
        · cases v <;> exact ⟨_, _, _, _, hend⟩
    obtain ⟨logMsg, logErr, message, parsed, hk⟩ := key
    refine ⟨_, message, Auth_rejected T jwtParse logger jwtSecret c _ _ _ _ _ hk,
      endState_rejected_isRejection _ _ _ _ _ _ _, ?_⟩
    cases parsed <;> simp [endState, withParsed, GetAuthUser, Ctx.Locals]
  · intro token hm
    rcases token with ⟨m, cl, v⟩
    cases m with
    | HMAC alg => exact absurd rfl (hm alg)
    | _ => rfl

theorem Auth_rejects_unverified_token_witness :
    passesFormatChecks sampleTables ((mkCtx (some "Bearer abc.def.ghi")).Get "Authorization")
      = true ∧
    sampleParser (candidateToken ((mkCtx (some "Bearer abc.def.ghi")).Get "Authorization"))
      (authKeyfunc "other-secret") = .error .ErrSignatureInvalid ∧
    ∃ c' message, StopsWith (Auth sampleTables sampleParser Option.none "other-secret")
        (mkCtx (some "Bearer abc.def.ghi")) c' ∧
      IsRejection (mkCtx (some "Bearer abc.def.ghi")) c' 401 message "INVALID_TOKEN" ∧
      GetAuthUser c' = GetAuthUser (mkCtx (some "Bearer abc.def.ghi")) :=
  ⟨by decide, rfl,
    (Auth_rejects_unverified_token sampleTables sampleParser Option.none "other-secret"
      (mkCtx (some "Bearer abc.def.ghi")) (by decide)
      (Or.inl ⟨.ErrSignatureInvalid, rfl⟩)).1⟩

/-! ## The authorizer `RequireRole` -/

/-- C1: with an identity of role `R` in the context, `RequireRole(L)` yields control to
the next handler if and only if `R` is, by exact string equality, an entry of `L`;
otherwise it writes one response with status 403 and code `INSUFFICIENT_PERMISSIONS`
and does not run the next handler.  The empty allow-list rejects every identity, and
role `Admin` is rejected by the allow-list `["admin"]`. -/
theorem RequireRole_passes_iff_role_listed (logger : Option Logger) (L : List String)
    (c : Ctx) (u : AuthUser) (h : GetAuthUser c = some u) :
    (u.Role ∈ L → ∃ c', YieldsWith (RequireRole logger L) c c' ∧ c'.written = c.written ∧
        c'.locals = c.locals ∧ c'.indexHandler = c.indexHandler + 1) ∧
    (u.Role ∉ L → ∃ c', StopsWith (RequireRole logger L) c c' ∧
        IsRejection c c' 403 "Forbidden: insufficient permissions" "INSUFFICIENT_PERMISSIONS") ∧
    ((∃ c', RequireRole logger L finalHandler c = .ok c' ∧
        c'.indexHandler = c.indexHandler + 1) ↔ u.Role ∈ L) ∧
    (∃ c', StopsWith (RequireRole logger []) c c' ∧
        IsRejection c c' 403 "Forbidden: insufficient permissions" "INSUFFICIENT_PERMISSIONS") ∧
    (u.Role = "Admin" → ∃ c', StopsWith (RequireRole logger ["admin"]) c c' ∧
        IsRejection c c' 403 "Forbidden: insufficient permissions"
          "INSUFFICIENT_PERMISSIONS") := by
  have pass : ∀ L' : List String, u.Role ∈ L' →
      ∃ c', YieldsWith (RequireRole logger L') c c' ∧ c'.written = c.written ∧
        c'.locals = c.locals ∧ c'.indexHandler = c.indexHandler + 1 := by
    intro L' hR
    exact ⟨_, fun next => RequireRole_of_mem logger L' next c u h hR, by simp, by simp, by simp⟩
  have fail : ∀ L' : List String, u.Role ∉ L' →
      ∃ c', StopsWith (RequireRole logger L') c c' ∧
        IsRejection c c' 403 "Forbidden: insufficient permissions"
          "INSUFFICIENT_PERMISSIONS" := by
    intro L' hR
    exact ⟨_, fun next => RequireRole_of_not_mem logger L' next c u h hR,
      ⟨_, rfl, rfl, rfl, rfl, rfl⟩, by simp, by simp⟩
  refine ⟨pass L, fail L, ⟨?_, ?_⟩, fail [] (by simp), ?_⟩
  · rintro ⟨c', hrun, hidx⟩
    by_contra hR
    obtain ⟨c'', hstop, -, -, hidx'⟩ := fail L hR
    rw [hstop finalHandler] at hrun
    injection hrun with hrun
    subst hrun
    omega
  · intro hR
    obtain ⟨c', hy, -, -, hidx⟩ := pass L hR
    exact ⟨c', by rw [hy finalHandler]; rfl, hidx⟩
  · intro hA
    apply fail
    rw [hA]
    decide

theorem RequireRole_passes_iff_role_listed_witness :
    GetAuthUser ctxWithAdminCaps = some ⟨7, "Admin"⟩ ∧
    ((∃ c', RequireRole Option.none ["admin"] finalHandler ctxWithAdminCaps = .ok c' ∧
        c'.indexHandler = ctxWithAdminCaps.indexHandler + 1) ↔ "Admin" ∈ ["admin"]) :=
  ⟨rfl, (RequireRole_passes_iff_role_listed Option.none ["admin"] ctxWithAdminCaps
    ⟨7, "Admin"⟩ rfl).2.2.1⟩

/-- C5: whatever the allow-list, `RequireRole` on a context that holds no
`models.AuthUser` under the key `authUser` (nothing stored, or a value of another
type) writes one response with status 401 and code `UNAUTHORIZED` and does not run
the next handler. -/
theorem RequireRole_without_identity (logger : Option Logger) (L : List String) (c : Ctx)
    (h : ∀ u, c.Locals "authUser" ≠ some (.authUser u)) :
    ∃ c', StopsWith (RequireRole logger L) c c' ∧
      IsRejection c c' 401 "Unauthorized" "UNAUTHORIZED" := by
  have hnone : GetAuthUser c = Option.none := by
    unfold GetAuthUser AuthUserKey
    split
    · next u hu => exact absurd hu (h u)
    · rfl
  exact ⟨_, fun next => RequireRole_of_no_user logger L next c hnone,
    ⟨_, rfl, rfl, rfl, rfl, rfl⟩, by simp, by simp⟩

theorem RequireRole_without_identity_witness :
    (∀ u, ctxWithForeignUser.Locals "authUser" ≠ some (.authUser u)) ∧
    ∃ c', StopsWith (RequireRole Option.none ["admin"]) ctxWithForeignUser c' ∧
      IsRejection ctxWithForeignUser c' 401 "Unauthorized" "UNAUTHORIZED" :=
  ⟨fun u => by simp [ctxWithForeignUser, Ctx.Locals, List.lookup],
    RequireRole_without_identity Option.none ["admin"] ctxWithForeignUser
      (fun u => by simp [ctxWithForeignUser, Ctx.Locals, List.lookup])⟩

/-! ## The authenticator `Auth`: every run -/

/-- C6: every run of `Auth` ends in exactly one of two ways.  Either it writes no
response, stores an identity under the key `authUser` and runs the next handler once;
or it writes exactly one response, with status 401 and the correlation id returned by
`GetRequestID` (the string stored under `requestID`) in its `request_id` field,
stores nothing and does not run the next handler.  No run both writes a response and
advances the chain. -/
theorem Auth_ends_one_of_two_ways (T : CaseTables) (jwtParse : JwtParser)
    (logger : Option Logger) (jwtSecret : String) (c : Ctx) :
    Xor' (∃ c' u, YieldsWith (Auth T jwtParse logger jwtSecret) c c' ∧
          c'.written = c.written ∧ c'.locals = (AuthUserKey, .authUser u) :: c.locals ∧
          GetAuthUser c' = some u ∧ c'.indexHandler = c.indexHandler + 1)
      (∃ c' message code, StopsWith (Auth T jwtParse logger jwtSecret) c c' ∧
          IsRejection c c' 401 message code) ∧
    (∀ c', Auth T jwtParse logger jwtSecret finalHandler c = .ok c' →
      ¬ (c'.written ≠ c.written ∧ c'.indexHandler ≠ c.indexHandler)) ∧
    (∀ rid, c.Locals "requestID" = some (.str rid) → GetRequestID c = rid) := by
  have hrid : ∀ rid, c.Locals "requestID" = some (.str rid) → GetRequestID c = rid := by
    intro rid h
    simp [GetRequestID, h]
  have excl : ∀ a b, YieldsWith (Auth T jwtParse logger jwtSecret) c a →
      StopsWith (Auth T jwtParse logger jwtSecret) c b → False := by
    intro a b hy hs
    have h1 := hy (fun _ => .error .nilDereference)
    rw [hs (fun _ => .error .nilDereference)] at h1
    exact Except.noConfusion h1
  cases hend : authEnd T jwtParse jwtSecret (c.Get "Authorization") with
  | rejected logMsg logErr message code parsed =>
    have hs := Auth_rejected T jwtParse logger jwtSecret c _ _ _ _ _ hend
    have hr := endState_rejected_isRejection logger c logMsg logErr message code parsed
    refine ⟨Or.inr ⟨⟨_, message, code, hs, hr⟩, ?_⟩, ?_, hrid⟩
    · rintro ⟨a, u, hy, -⟩
      exact excl _ _ hy hs
    · intro c' hrun
      rw [hs finalHandler] at hrun
      injection hrun with hrun
      subst hrun
      intro hboth
      exact hboth.2 hr.2.2
  | accepted tokenString authUser =>
    have hy := Auth_accepted T jwtParse logger jwtSecret c _ _ hend
    have e := endState_accepted logger c tokenString authUser
    refine ⟨Or.inl ⟨⟨_, authUser, hy, e.1, e.2.1, e.2.2.2.2.1, e.2.2.1⟩, ?_⟩, ?_, hrid⟩
    · rintro ⟨b, message, code, hs, -⟩
      exact excl _ _ hy hs
    · intro c' hrun
      rw [hy finalHandler] at hrun
      injection hrun with hrun
      subst hrun
      intro hboth
      exact hboth.1 e.1

/-! ## Logging -/

theorem Auth_sameDecision (T : CaseTables) (jwtParse : JwtParser) (lg lg' : Option Logger)
    (jwtSecret : String) (c : Ctx) :
    SameDecision (Auth T jwtParse lg jwtSecret) (Auth T jwtParse lg' jwtSecret) c := by
  cases hend : authEnd T jwtParse jwtSecret (c.Get "Authorization") with
  | rejected logMsg logErr message code parsed =>
    exact ⟨_, _, endState_eraseLogs lg lg' c _,
      Or.inr ⟨Auth_rejected T jwtParse lg jwtSecret c _ _ _ _ _ hend,
        Auth_rejected T jwtParse lg' jwtSecret c _ _ _ _ _ hend⟩⟩
  | accepted tokenString authUser =>
    exact ⟨_, _, endState_eraseLogs lg lg' c _,
      Or.inl ⟨Auth_accepted T jwtParse lg jwtSecret c _ _ hend,
        Auth_accepted T jwtParse lg' jwtSecret c _ _ hend⟩⟩

theorem eraseLogs_eq_iff (a b : Ctx) :
    a.eraseLogs = b.eraseLogs ↔
      a.reqHeaders = b.reqHeaders ∧ a.path = b.path ∧ a.locals = b.locals ∧
        a.written = b.written ∧ a.indexHandler = b.indexHandler ∧ a.parsed = b.parsed := by
  cases a; cases b; simp [Ctx.eraseLogs]

theorem GetAuthUser_of_eraseLogs (a b : Ctx) (h : a.eraseLogs = b.eraseLogs) :
    GetAuthUser a = GetAuthUser b := by
  have := ((eraseLogs_eq_iff a b).1 h).2.2.1
  simp [GetAuthUser, Ctx.Locals, this]

/-- On two states that differ in the log only, `RequireRole` takes the same decision
with any two loggers and ends in states that differ in the log only. -/
theorem RequireRole_sameDecision (lg lg' : Option Logger) (L : List String) (a b : Ctx)
    (hab : a.eraseLogs = b.eraseLogs) :
    ∃ a' b', a'.eraseLogs = b'.eraseLogs ∧
      ((YieldsWith (RequireRole lg L) a a' ∧ YieldsWith (RequireRole lg' L) b b') ∨
        (StopsWith (RequireRole lg L) a a' ∧ StopsWith (RequireRole lg' L) b b')) := by
  have hu := GetAuthUser_of_eraseLogs a b hab
  have hfields : a.reqHeaders = b.reqHeaders ∧ a.path = b.path ∧ a.locals = b.locals ∧
      a.written = b.written ∧ a.indexHandler = b.indexHandler ∧ a.parsed = b.parsed :=
    (eraseLogs_eq_iff a b).1 hab
  obtain ⟨h1, h2, h3, h4, h5, h6⟩ := hfields
  have hrid : GetRequestID a = GetRequestID b := by simp [GetRequestID, Ctx.Locals, h3]
  cases hua : GetAuthUser a with
  | none =>
    refine ⟨_, _, ?_, Or.inr ⟨fun next => RequireRole_of_no_user lg L next a hua,
      fun next => RequireRole_of_no_user lg' L next b (hu ▸ hua)⟩⟩
    cases lg <;> cases lg' <;> simp [Ctx.eraseLogs, logged, h1, h2, h3, h4, h5, h6, hrid]
  | some u =>
    by_cases hR : u.Role ∈ L
    · refine ⟨_, _, ?_, Or.inl ⟨fun next => RequireRole_of_mem lg L next a u hua hR,
        fun next => RequireRole_of_mem lg' L next b u (hu ▸ hua) hR⟩⟩
      cases lg <;> cases lg' <;> simp [Ctx.eraseLogs, logged, h1, h2, h3, h4, h5, h6]
    · refine ⟨_, _, ?_, Or.inr ⟨fun next => RequireRole_of_not_mem lg L next a u hua hR,
        fun next => RequireRole_of_not_mem lg' L next b u (hu ▸ hua) hR⟩⟩
      cases lg <;> cases lg' <;> simp [Ctx.eraseLogs, logged, h1, h2, h3, h4, h5, h6, hrid]

theorem roleChain_sameDecision (T : CaseTables) (jwtParse : JwtParser)
    (lg lg' : Option Logger) (jwtSecret : String) (L : List String) (c : Ctx) :
    SameDecision (fun next => roleChain T jwtParse lg jwtSecret L next)
      (fun next => roleChain T jwtParse lg' jwtSecret L next) c := by
  obtain ⟨a, b, hab, h | h⟩ := Auth_sameDecision T jwtParse lg lg' jwtSecret c
  · obtain ⟨a', b', hab', h' | h'⟩ := RequireRole_sameDecision lg lg' L a b hab
    · refine ⟨a', b', hab', Or.inl ⟨fun next => ?_, fun next => ?_⟩⟩
      · show Auth T jwtParse lg jwtSecret (RequireRole lg L next) c = _
        rw [h.1, h'.1]
      · show Auth T jwtParse lg' jwtSecret (RequireRole lg' L next) c = _
        rw [h.2, h'.2]
    · refine ⟨a', b', hab', Or.inr ⟨fun next => ?_, fun next => ?_⟩⟩
      · show Auth T jwtParse lg jwtSecret (RequireRole lg L next) c = _
        rw [h.1, h'.1]
      · show Auth T jwtParse lg' jwtSecret (RequireRole lg' L next) c = _
        rw [h.2, h'.2]
  · refine ⟨a, b, hab, Or.inr ⟨fun next => ?_, fun next => ?_⟩⟩
    · show Auth T jwtParse lg jwtSecret (RequireRole lg L next) c = _
      rw [h.1]
    · show Auth T jwtParse lg' jwtSecret (RequireRole lg' L next) c = _
      rw [h.2]

theorem not_error_of_sameDecision (run run' : Handler → Handler) (c : Ctx)
    (h : SameDecision run run' c) (e : Panic) : run finalHandler c ≠ .error e := by
  obtain ⟨a, b, -, h | h⟩ := h
  · rw [h.1 finalHandler]; exact fun h => Except.noConfusion h
  · rw [h.1 finalHandler]; exact fun h => Except.noConfusion h

/-- C8: logging does not affect the outcome.  For every request, secret and allow-list,
`Auth`, `RequireRole` and their chain take the same decision (run the next handler, or
stop) with the logger unset and with a logger installed, and the states they end in
or hand over agree in everything but the log: the responses written (status, code,
message, request id), the local store with the identity, and the chain position.
With the logger unset no run panics. -/
theorem logging_does_not_affect_outcome (T : CaseTables) (jwtParse : JwtParser)
    (jwtSecret : String) (L : List String) (l : Logger) (c : Ctx) :
    SameDecision (Auth T jwtParse loggerUnset jwtSecret)
      (Auth T jwtParse (InitLogger (some l) loggerUnset) jwtSecret) c ∧
    SameDecision (RequireRole loggerUnset L) (RequireRole (InitLogger (some l) loggerUnset) L) c ∧
    SameDecision (fun next => roleChain T jwtParse loggerUnset jwtSecret L next)
      (fun next => roleChain T jwtParse (InitLogger (some l) loggerUnset) jwtSecret L next) c ∧
    (∀ e, Auth T jwtParse loggerUnset jwtSecret finalHandler c ≠ .error e) ∧
    (∀ e, RequireRole loggerUnset L finalHandler c ≠ .error e) ∧
    (∀ e, roleChain T jwtParse loggerUnset jwtSecret L finalHandler c ≠ .error e) := by
  have h1 := Auth_sameDecision T jwtParse Option.none (some l) jwtSecret c
  have h2 : SameDecision (RequireRole Option.none L) (RequireRole (some l) L) c :=
    RequireRole_sameDecision Option.none (some l) L c c rfl
  have h3 := roleChain_sameDecision T jwtParse Option.none (some l) jwtSecret L c
  exact ⟨h1, h2, h3, not_error_of_sameDecision _ _ c h1, not_error_of_sameDecision _ _ c h2,
    not_error_of_sameDecision _ _ c h3⟩

/-! ## The chain of the role-gated route group -/

theorem authEnd_of_verified (T : CaseTables) (jwtParse : JwtParser) (jwtSecret h : String)
    (u : AuthUser) (hfmt : passesFormatChecks T h = true)
    (hv : verifiedUser jwtParse jwtSecret h = some u) :
    authEnd T jwtParse jwtSecret h = .accepted (candidateToken h) u := by
  rw [authEnd_of_format T jwtParse jwtSecret h hfmt]
  unfold verifiedUser at hv
  cases hparse : jwtParse (candidateToken h) (authKeyfunc jwtSecret) with
  | error err => rw [hparse] at hv; exact absurd hv (by simp)
  | ok token =>
    rw [hparse] at hv
    rcases token with ⟨m, cl, v⟩
    cases cl <;> cases v <;> simp_all

theorem authEnd_of_not_verified (T : CaseTables) (jwtParse : JwtParser)
    (jwtSecret h : String) (hfmt : passesFormatChecks T h = true)
    (hv : verifiedUser jwtParse jwtSecret h = Option.none) :
    ∃ logMsg logErr message parsed, authEnd T jwtParse jwtSecret h =
      .rejected logMsg logErr message "INVALID_TOKEN" parsed := by
  rw [authEnd_of_format T jwtParse jwtSecret h hfmt]
  unfold verifiedUser at hv
  cases hparse : jwtParse (candidateToken h) (authKeyfunc jwtSecret) with
  | error err => exact ⟨_, _, _, _, rfl⟩
  | ok token =>
    rw [hparse] at hv
    rcases token with ⟨m, cl, v⟩
    cases cl <;> cases v <;> first | exact ⟨_, _, _, _, rfl⟩ | simp at hv

/-- C9: in the chain `Auth(secret)`, `RequireRole(L)`, handler, the handler is reached
if and only if the header passes the format checks, the token parser accepts the
candidate token with some identity, and the role of that identity is an entry of `L`.
When `Auth` yields control, the context it hands over holds an identity, so
`RequireRole` does not take its no-identity branch and can only fail with status 403
and code `INSUFFICIENT_PERMISSIONS`.  The `/admin` group is this chain with
`L = ["admin"]`; a token with claims `{42, "admin"}` passes it and gets the 403 against
the allow-list `["user"]`. -/
theorem roleChain_reaches_handler_iff (T : CaseTables) (jwtParse : JwtParser)
    (logger : Option Logger) (jwtSecret : String) (L : List String) (c : Ctx) :
    (∀ u, passesFormatChecks T (c.Get "Authorization") = true →
      verifiedUser jwtParse jwtSecret (c.Get "Authorization") = some u → u.Role ∈ L →
      ∃ c', YieldsWith (roleChain T jwtParse logger jwtSecret L) c c' ∧
        GetAuthUser c' = some u ∧ c'.written = c.written ∧
        c'.indexHandler = c.indexHandler + 2) ∧
    (∀ u, passesFormatChecks T (c.Get "Authorization") = true →
      verifiedUser jwtParse jwtSecret (c.Get "Authorization") = some u → u.Role ∉ L →
      ∃ c', StopsWith (roleChain T jwtParse logger jwtSecret L) c c' ∧
        (∃ r : Response, c'.written = c.written ++ [r] ∧ r.status = 403 ∧
          r.body.Error.Message = "Forbidden: insufficient permissions" ∧
          r.body.Error.Code = "INSUFFICIENT_PERMISSIONS" ∧
          r.body.Error.RequestID = GetRequestID c) ∧
        GetAuthUser c' = some u ∧ c'.indexHandler = c.indexHandler + 1) ∧
    (passesFormatChecks T (c.Get "Authorization") = false ∨
      verifiedUser jwtParse jwtSecret (c.Get "Authorization") = Option.none →
      ∃ c' message code, StopsWith (roleChain T jwtParse logger jwtSecret L) c c' ∧
        IsRejection c c' 401 message code) ∧
    ((∃ c', roleChain T jwtParse logger jwtSecret L finalHandler c = .ok c' ∧
        c'.indexHandler = c.indexHandler + 2) ↔
      (passesFormatChecks T (c.Get "Authorization") = true ∧
        ∃ u, verifiedUser jwtParse jwtSecret (c.Get "Authorization") = some u ∧ u.Role ∈ L)) ∧
    (∀ c1, YieldsWith (Auth T jwtParse logger jwtSecret) c c1 →
      GetAuthUser c1 ≠ Option.none) ∧
    adminChain T jwtParse logger jwtSecret = roleChain T jwtParse logger jwtSecret ["admin"] ∧
    adminChain sampleTables sampleParser Option.none "s3cret" finalHandler
        (mkCtx (some "Bearer abc.def.ghi")) =
      .ok { mkCtx (some "Bearer abc.def.ghi") with
        locals := [("authUser", .authUser ⟨42, "admin"⟩), ("requestID", .str "req-1")]
        parsed := ["abc.def.ghi"]
        indexHandler := 2 } ∧
    roleChain sampleTables sampleParser Option.none "s3cret" ["user"] finalHandler
        (mkCtx (some "Bearer abc.def.ghi")) =
      .ok { mkCtx (some "Bearer abc.def.ghi") with
        locals := [("authUser", .authUser ⟨42, "admin"⟩), ("requestID", .str "req-1")]
        parsed := ["abc.def.ghi"]
        indexHandler := 1
        written := [{ status := 403, body := { Error := {
          Message := "Forbidden: insufficient permissions", Code := "INSUFFICIENT_PERMISSIONS",
          RequestID := "req-1" } } }] } := by
  have pass : ∀ u, passesFormatChecks T (c.Get "Authorization") = true →
      verifiedUser jwtParse jwtSecret (c.Get "Authorization") = some u → u.Role ∈ L →
      ∃ c', YieldsWith (roleChain T jwtParse logger jwtSecret L) c c' ∧
        GetAuthUser c' = some u ∧ c'.written = c.written ∧
        c'.indexHandler = c.indexHandler + 2 := by
    intro u hfmt hv hR
    have hy := Auth_accepted T jwtParse logger jwtSecret c _ _
      (authEnd_of_verified T jwtParse jwtSecret _ u hfmt hv)
    have e := endState_accepted logger c (candidateToken (c.Get "Authorization")) u
    refine ⟨_, fun next => (hy (RequireRole logger L next)).trans
      (RequireRole_of_mem logger L next _ u e.2.2.2.2.1 hR), ?_, ?_, ?_⟩
    · simpa [GetAuthUser, Ctx.Locals] using e.2.2.2.2.1
    · simpa using e.1
    · simp [e.2.2.1]
  have forbid : ∀ u, passesFormatChecks T (c.Get "Authorization") = true →
      verifiedUser jwtParse jwtSecret (c.Get "Authorization") = some u → u.Role ∉ L →
      ∃ c', StopsWith (roleChain T jwtParse logger jwtSecret L) c c' ∧
        (∃ r : Response, c'.written = c.written ++ [r] ∧ r.status = 403 ∧
          r.body.Error.Message = "Forbidden: insufficient permissions" ∧
          r.body.Error.Code = "INSUFFICIENT_PERMISSIONS" ∧
          r.body.Error.RequestID = GetRequestID c) ∧
        GetAuthUser c' = some u ∧ c'.indexHandler = c.indexHandler + 1 := by
    intro u hfmt hv hR
    have hy := Auth_accepted T jwtParse logger jwtSecret c _ _
      (authEnd_of_verified T jwtParse jwtSecret _ u hfmt hv)
    have e := endState_accepted logger c (candidateToken (c.Get "Authorization")) u
    refine ⟨_, fun next => (hy (RequireRole logger L next)).trans
      (RequireRole_of_not_mem logger L next _ u e.2.2.2.2.1 hR), ?_, ?_, ?_⟩
    · refine ⟨⟨403, ⟨⟨"Forbidden: insufficient permissions", "INSUFFICIENT_PERMISSIONS",
        GetRequestID c⟩⟩⟩, ?_, rfl, rfl, rfl, rfl⟩
      simp [e.1, e.2.2.2.2.2]
    · simpa [GetAuthUser, Ctx.Locals] using e.2.2.2.2.1
    · simp [e.2.2.1]
  have reject : passesFormatChecks T (c.Get "Authorization") = false ∨
      verifiedUser jwtParse jwtSecret (c.Get "Authorization") = Option.none →
      ∃ c' message code, StopsWith (roleChain T jwtParse logger jwtSecret L) c c' ∧
        IsRejection c c' 401 message code := by
    intro h
    have key : ∃ logMsg logErr message code parsed,
        authEnd T jwtParse jwtSecret (c.Get "Authorization") =
          .rejected logMsg logErr message code parsed := by
      by_cases hfmt : passesFormatChecks T (c.Get "Authorization") = true
      · rcases h with h | h
        · rw [hfmt] at h; exact absurd h (by simp)
        · obtain ⟨l, e, m, p, hk⟩ := authEnd_of_not_verified T jwtParse jwtSecret _ hfmt h
          exact ⟨_, _, _, _, _, hk⟩
      · obtain ⟨l, m, hk⟩ := authEnd_of_not_format T jwtParse jwtSecret _ (by simpa using hfmt)
        exact ⟨_, _, _, _, _, hk⟩
    obtain ⟨l, e, m, code, p, hk⟩ := key
    have hs := Auth_rejected T jwtParse logger jwtSecret c _ _ _ _ _ hk
    exact ⟨_, m, code, fun next => hs (RequireRole logger L next),
      endState_rejected_isRejection _ _ _ _ _ _ _⟩
  refine ⟨pass, forbid, reject, ⟨?_, ?_⟩, ?_, rfl, rfl, rfl⟩
  · rintro ⟨c', hrun, hidx⟩
    by_cases hfmt : passesFormatChecks T (c.Get "Authorization") = true
    · cases hv : verifiedUser jwtParse jwtSecret (c.Get "Authorization") with
      | none =>
        obtain ⟨b, m, code, hs, hr⟩ := reject (Or.inr hv)
        rw [hs finalHandler] at hrun
        injection hrun with hrun
        subst hrun
        have := hr.2.2
        omega
      | some u =>
        by_cases hR : u.Role ∈ L
        · exact ⟨hfmt, u, rfl, hR⟩
        · obtain ⟨b, hs, -, -, hi⟩ := forbid u hfmt hv hR
          rw [hs finalHandler] at hrun
          injection hrun with hrun
          subst hrun
          omega
    · obtain ⟨b, m, code, hs, hr⟩ := reject (Or.inl (by simpa using hfmt))
      rw [hs finalHandler] at hrun
      injection hrun with hrun
      subst hrun
      have := hr.2.2
      omega
  · rintro ⟨hfmt, u, hv, hR⟩
    obtain ⟨c', hy, -, -, hidx⟩ := pass u hfmt hv hR
    exact ⟨c', by rw [hy finalHandler]; rfl, hidx⟩
  · intro c1 hy
    cases hend : authEnd T jwtParse jwtSecret (c.Get "Authorization") with
    | rejected logMsg logErr message code parsed =>
      have hs := Auth_rejected T jwtParse logger jwtSecret c _ _ _ _ _ hend
      have h1 := hy (fun _ => .error .nilDereference)
      rw [hs (fun _ => .error .nilDereference)] at h1
      exact Except.noConfusion h1
    | accepted tokenString authUser =>
      have hy' := Auth_accepted T jwtParse logger jwtSecret c _ _ hend
      have h1 := hy finalHandler
      rw [hy' finalHandler] at h1
      injection h1 with h1
      rw [← h1, (endState_accepted logger c tokenString authUser).2.2.2.2.1]
      simp

theorem roleChain_reaches_handler_iff_witness :
    passesFormatChecks sampleTables ((mkCtx (some "Bearer abc.def.ghi")).Get "Authorization")
      = true ∧
    verifiedUser sampleParser "s3cret" ((mkCtx (some "Bearer abc.def.ghi")).Get "Authorization")
      = some ⟨42, "admin"⟩ ∧
    "admin" ∈ ["admin"] ∧
    ∃ c', YieldsWith (roleChain sampleTables sampleParser Option.none "s3cret" ["admin"])
        (mkCtx (some "Bearer abc.def.ghi")) c' ∧
      GetAuthUser c' = some ⟨42, "admin"⟩ ∧
      c'.written = (mkCtx (some "Bearer abc.def.ghi")).written ∧
      c'.indexHandler = (mkCtx (some "Bearer abc.def.ghi")).indexHandler + 2 :=
  ⟨by decide, by decide, by decide,
    (roleChain_reaches_handler_iff sampleTables sampleParser Option.none "s3cret" ["admin"]
      (mkCtx (some "Bearer abc.def.ghi"))).1 ⟨42, "admin"⟩ (by decide) (by decide)
      (by decide)⟩

end Backend
